import Mathlib

/-!
Verification of the xml-rpc-rs repository: a shallow embedding of its
Value/XML codec, HTTP framing layer and dispatcher, with theorems
settling the specification claims.

Sources embedded: `src/server.rs`, `src/http/request.rs`,
`src/http/response.rs`.  The `xmlfmt` codec and `http/common.rs` are not
present in the source tree (only the codec's tests are), so those parts
are modelled from the specification, as marked on each definition.
-/

set_option maxHeartbeats 1000000

/-! ## Decimal digit machinery

Shared by the codec (i32 / f64 rendering and parsing, `i32::from_str`)
and by the HTTP layer (`usize::from_str`, `Content-Length` rendering). -/

/-- The ASCII digit character for a digit value `d < 10`. -/
def digitChar (d : Nat) : Char :=
  match d with
  | 0 => '0' | 1 => '1' | 2 => '2' | 3 => '3' | 4 => '4'
  | 5 => '5' | 6 => '6' | 7 => '7' | 8 => '8' | 9 => '9'
  | _ => '?'

/-- Is the character an ASCII decimal digit? -/
def isDigitCh (c : Char) : Bool := '0' ≤ c && c ≤ '9'

/-- Digit value of an ASCII digit character. -/
def digitVal (c : Char) : Nat := c.toNat - 48

/-- Little-endian digit list of `n` (fuel-structural so the kernel can
evaluate it; the fuel is always instantiated with `n` itself). -/
def natDigitsRevAux : Nat → Nat → List Nat
  | 0, _ => []
  | fuel + 1, n => if n = 0 then [] else n % 10 :: natDigitsRevAux fuel (n / 10)

/-- Decimal rendering of a natural number as a character list, mirroring
Rust's `Display for usize`/`u64` output. -/
def natReprChars (n : Nat) : List Char :=
  if n = 0 then ['0'] else ((natDigitsRevAux n n).map digitChar).reverse

/-- Big-endian value of a digit character list (the accumulator fold that
decimal parsing performs). -/
def valBE (cs : List Char) : Nat :=
  cs.foldl (fun a c => a * 10 + digitVal c) 0

/-- Parse a nonempty all-digit character list as a natural number; `none`
otherwise.  This is the digit-run core shared by the integer parsers. -/
def parseNatChars (cs : List Char) : Option Nat :=
  if cs ≠ [] ∧ cs.all isDigitCh then some (valBE cs) else none

/-- Little-endian value of a digit list. -/
def valLE : List Nat → Nat
  | [] => 0
  | d :: ds => d + 10 * valLE ds

theorem natDigitsRevAux_val (fuel : Nat) :
    ∀ n, n ≤ fuel → valLE (natDigitsRevAux fuel n) = n := by
  induction fuel with
  | zero => intro n hn; interval_cases n; simp [natDigitsRevAux, valLE]
  | succ f ih =>
    intro n hn
    by_cases h0 : n = 0
    · simp [natDigitsRevAux, h0, valLE]
    · have hdiv : n / 10 ≤ f := by
        have : n / 10 < n := Nat.div_lt_self (Nat.pos_of_ne_zero h0) (by omega)
        omega
      simp only [natDigitsRevAux, h0, if_false, valLE, ih _ hdiv]
      omega

theorem natDigitsRevAux_lt (fuel : Nat) :
    ∀ n, ∀ d ∈ natDigitsRevAux fuel n, d < 10 := by
  induction fuel with
  | zero => intro n d hd; simp [natDigitsRevAux] at hd
  | succ f ih =>
    intro n d hd
    by_cases h0 : n = 0
    · simp [natDigitsRevAux, h0] at hd
    · simp only [natDigitsRevAux, h0, if_false, List.mem_cons] at hd
      rcases hd with h | h
      · omega
      · exact ih _ _ h

theorem digitChar_isDigit : ∀ d < 10, isDigitCh (digitChar d) = true := by decide

theorem digitVal_digitChar : ∀ d < 10, digitVal (digitChar d) = d := by decide

theorem valBE_cons (a : Nat) (c : Char) (cs : List Char) :
    (c :: cs).foldl (fun a c => a * 10 + digitVal c) a
      = cs.foldl (fun a c => a * 10 + digitVal c) (a * 10 + digitVal c) := by
  simp [List.foldl]

theorem foldl_digits_shift (cs : List Char) :
    ∀ a : Nat, cs.foldl (fun a c => a * 10 + digitVal c) a
      = a * 10 ^ cs.length + valBE cs := by
  induction cs with
  | nil => intro a; simp [valBE]
  | cons c cs ih =>
    intro a
    have hv : valBE (c :: cs) = digitVal c * 10 ^ cs.length + valBE cs := by
      unfold valBE
      rw [valBE_cons, ih]
      ring_nf
      rw [ih 0]
      ring
    rw [valBE_cons, ih, hv, List.length_cons]
    ring

theorem valBE_append (xs ys : List Char) :
    valBE (xs ++ ys) = valBE xs * 10 ^ ys.length + valBE ys := by
  unfold valBE
  rw [List.foldl_append, foldl_digits_shift]
  rfl

theorem valBE_rev_map (ds : List Nat) (h : ∀ d ∈ ds, d < 10) :
    valBE ((ds.map digitChar).reverse) = valLE ds := by
  induction ds with
  | nil => simp [valBE, valLE]
  | cons d ds ih =>
    simp only [List.map_cons, List.reverse_cons]
    rw [valBE_append]
    have hd : d < 10 := h d (by simp)
    have : valBE [digitChar d] = d := by
      simp [valBE, digitVal_digitChar d hd]
    rw [this, ih (fun x hx => h x (by simp [hx]))]
    simp [valLE]
    ring

theorem valBE_natReprChars (n : Nat) : valBE (natReprChars n) = n := by
  unfold natReprChars
  by_cases h0 : n = 0
  · simp [h0, valBE, digitVal]
  · simp only [h0, if_false]
    rw [valBE_rev_map _ (natDigitsRevAux_lt n n), natDigitsRevAux_val n n le_rfl]

theorem natReprChars_digits (n : Nat) :
    ∀ c ∈ natReprChars n, isDigitCh c = true := by
  unfold natReprChars
  by_cases h0 : n = 0
  · simp [h0]; decide
  · simp only [h0, if_false]
    intro c hc
    rw [List.mem_reverse, List.mem_map] at hc
    obtain ⟨d, hd, rfl⟩ := hc
    exact digitChar_isDigit d (natDigitsRevAux_lt n n d hd)

theorem natReprChars_ne_nil (n : Nat) : natReprChars n ≠ [] := by
  unfold natReprChars
  by_cases h0 : n = 0
  · simp [h0]
  · simp only [h0, if_false]
    intro h
    rw [List.reverse_eq_nil_iff, List.map_eq_nil_iff] at h
    have := natDigitsRevAux_val n n le_rfl
    rw [h] at this
    simp [valLE] at this
    omega

theorem parseNatChars_natReprChars (n : Nat) :
    parseNatChars (natReprChars n) = some n := by
  unfold parseNatChars
  rw [if_pos ⟨natReprChars_ne_nil n, List.all_eq_true.mpr (natReprChars_digits n)⟩,
    valBE_natReprChars]

/-- Parse a signed decimal integer: optional `-`/`+` sign then a nonempty
digit run, as Rust's `i32::from_str`/`i64::from_str` accept (width checks
are layered on top separately). -/
def parseIntChars (cs : List Char) : Option Int :=
  match cs with
  | [] => none
  | c :: rest =>
    if c = '-' then (parseNatChars rest).map (fun n => -(n : Int))
    else if c = '+' then (parseNatChars rest).map (fun n => (n : Int))
    else (parseNatChars cs).map (fun n => (n : Int))

/-- Decimal rendering of a signed integer, mirroring Rust's `Display`. -/
def intReprChars (i : Int) : List Char :=
  if i < 0 then '-' :: natReprChars i.natAbs else natReprChars i.natAbs

theorem isDigitCh_ne_signs {c : Char} (h : isDigitCh c = true) :
    c ≠ '-' ∧ c ≠ '+' ∧ c ≠ '.' := by
  refine ⟨?_, ?_, ?_⟩ <;> intro heq <;> subst heq <;> exact absurd h (by decide)

theorem parseIntChars_intReprChars (i : Int) :
    parseIntChars (intReprChars i) = some i := by
  unfold intReprChars
  by_cases hneg : i < 0
  · simp only [hneg, if_true, parseIntChars, if_pos rfl,
      parseNatChars_natReprChars, Option.map_some]
    refine congrArg some ?_
    show -((i.natAbs : Nat) : Int) = i
    omega
  · simp only [hneg, if_false]
    obtain ⟨c, t, hct⟩ : ∃ c t, natReprChars i.natAbs = c :: t := by
      cases h : natReprChars i.natAbs with
      | nil => exact absurd h (natReprChars_ne_nil _)
      | cons c t => exact ⟨c, t, rfl⟩
    have hdig : isDigitCh c = true := by
      have := natReprChars_digits i.natAbs c (by rw [hct]; simp)
      exact this
    obtain ⟨h1, h2, _⟩ := isDigitCh_ne_signs hdig
    rw [hct, parseIntChars, if_neg h1, if_neg h2, ← hct,
      parseNatChars_natReprChars]
    refine congrArg some ?_
    show ((i.natAbs : Nat) : Int) = i
    omega

/-- Parse as Rust's `i32::from_str`: signed decimal constrained to the
32-bit signed range. -/
def parseI32Chars (cs : List Char) : Option Int :=
  (parseIntChars cs).bind
    (fun i => if -(2 ^ 31) ≤ i ∧ i < 2 ^ 31 then some i else none)

theorem parseI32Chars_intReprChars (i : Int)
    (h : -(2 ^ 31) ≤ i ∧ i < 2 ^ 31) :
    parseI32Chars (intReprChars i) = some i := by
  unfold parseI32Chars
  rw [parseIntChars_intReprChars]
  simp
  omega

/-! ### Decimal fraction rendering (the f64 payload model)

The codec is absent from `src/`; following the spec, a `double` carries a
64-bit float which the encoder prints as a decimal literal and the
decoder parses back.  The float is modelled by its exact decimal value:
an integer significand `s` and a scale `k` denoting `s / 10^k`. -/

/-- Digit run of `|s|` left-padded with zeros to at least `k + 1` digits. -/
def padDigits (s : Int) (k : Nat) : List Char :=
  List.replicate (k + 1 - (natReprChars s.natAbs).length) '0'
    ++ natReprChars s.natAbs

/-- Render `s / 10^k` as a decimal literal (sign, integer part, and for
`k > 0` a dot followed by exactly `k` fractional digits). -/
def decReprChars (s : Int) (k : Nat) : List Char :=
  if k = 0 then intReprChars s
  else
    (if s < 0 then ['-'] else [])
      ++ (padDigits s k).take ((padDigits s k).length - k)
      ++ '.' :: (padDigits s k).drop ((padDigits s k).length - k)

/-- Split a character list at its first dot. -/
def splitDot : List Char → Option (List Char × List Char)
  | [] => none
  | c :: rest =>
    if c = '.' then some ([], rest)
    else (splitDot rest).map (fun p => (c :: p.1, p.2))

/-- Unsigned core of decimal-literal parsing: digit run with at most one
dot; returns the digits' value and the number of fractional digits. -/
def parseDecCore (cs : List Char) : Option (Nat × Nat) :=
  (splitDot cs).elim ((parseNatChars cs).map (fun n => (n, 0)))
    (fun p =>
      if p.1 ≠ [] ∧ p.1.all isDigitCh ∧ p.2.all isDigitCh then
        some (valBE (p.1 ++ p.2), p.2.length)
      else none)

/-- Parse a decimal float literal into the significand/scale model. -/
def parseDecChars (cs : List Char) : Option (Int × Nat) :=
  match cs with
  | [] => none
  | c :: rest =>
    if c = '-' then (parseDecCore rest).map (fun p => (-(p.1 : Int), p.2))
    else if c = '+' then (parseDecCore rest).map (fun p => ((p.1 : Int), p.2))
    else (parseDecCore cs).map (fun p => ((p.1 : Int), p.2))

theorem splitDot_of_no_dot (cs : List Char) (h : ∀ c ∈ cs, c ≠ '.') :
    splitDot cs = none := by
  induction cs with
  | nil => rfl
  | cons c rest ih =>
    rw [splitDot, if_neg (h c (by simp)), ih (fun x hx => h x (by simp [hx]))]
    rfl

theorem splitDot_append (xs ys : List Char) (h : ∀ c ∈ xs, c ≠ '.') :
    splitDot (xs ++ '.' :: ys) = some (xs, ys) := by
  induction xs with
  | nil => simp [splitDot]
  | cons c rest ih =>
    rw [List.cons_append, splitDot, if_neg (h c (by simp)),
      ih (fun x hx => h x (by simp [hx]))]
    rfl

theorem valBE_cons_eq (c : Char) (cs : List Char) :
    valBE (c :: cs) = digitVal c * 10 ^ cs.length + valBE cs := by
  show List.foldl _ 0 _ = _
  rw [valBE_cons, foldl_digits_shift]
  ring

theorem valBE_replicate_zero (m : Nat) :
    valBE (List.replicate m '0') = 0 := by
  induction m with
  | zero => rfl
  | succ m ih =>
    rw [List.replicate_succ, valBE_cons_eq, ih]
    simp [digitVal]

theorem valBE_pad (m : Nat) (ds : List Char) :
    valBE (List.replicate m '0' ++ ds) = valBE ds := by
  rw [valBE_append, valBE_replicate_zero]
  simp

theorem parseDecCore_digits (ds : List Char) (h0 : ds ≠ [])
    (hd : ∀ c ∈ ds, isDigitCh c = true) :
    parseDecCore ds = some (valBE ds, 0) := by
  unfold parseDecCore
  rw [splitDot_of_no_dot ds (fun c hc => (isDigitCh_ne_signs (hd c hc)).2.2),
    Option.elim_none]
  unfold parseNatChars
  rw [if_pos ⟨h0, List.all_eq_true.mpr hd⟩]
  rfl

theorem parseDecCore_split (a b : List Char) (ha0 : a ≠ [])
    (ha : ∀ c ∈ a, isDigitCh c = true) (hb : ∀ c ∈ b, isDigitCh c = true) :
    parseDecCore (a ++ '.' :: b) = some (valBE (a ++ b), b.length) := by
  unfold parseDecCore
  rw [splitDot_append a b (fun c hc => (isDigitCh_ne_signs (ha c hc)).2.2),
    Option.elim_some]
  exact if_pos ⟨ha0, List.all_eq_true.mpr ha, List.all_eq_true.mpr hb⟩

theorem parseDecChars_split_pos (a b : List Char) (ha0 : a ≠ [])
    (ha : ∀ c ∈ a, isDigitCh c = true) (hb : ∀ c ∈ b, isDigitCh c = true) :
    parseDecChars (a ++ '.' :: b) = some ((valBE (a ++ b) : Int), b.length) := by
  obtain ⟨c, t, hct⟩ : ∃ c t, a = c :: t := by
    cases h : a with
    | nil => exact absurd h ha0
    | cons c t => exact ⟨c, t, rfl⟩
  subst hct
  have hdig : isDigitCh c = true := ha c (by simp)
  obtain ⟨h1, h2, _⟩ := isDigitCh_ne_signs hdig
  rw [List.cons_append, parseDecChars, if_neg h1, if_neg h2, ← List.cons_append,
    parseDecCore_split (c :: t) b (by simp) ha hb, Option.map_some']

theorem parseDecChars_split_neg (a b : List Char) (ha0 : a ≠ [])
    (ha : ∀ c ∈ a, isDigitCh c = true) (hb : ∀ c ∈ b, isDigitCh c = true) :
    parseDecChars ('-' :: (a ++ '.' :: b))
      = some (-(valBE (a ++ b) : Int), b.length) := by
  rw [parseDecChars, if_pos rfl, parseDecCore_split a b ha0 ha hb,
    Option.map_some']

theorem parseDecChars_decReprChars (s : Int) (k : Nat) :
    parseDecChars (decReprChars s k) = some (s, k) := by
  by_cases hk : k = 0
  · unfold decReprChars
    rw [if_pos hk]
    unfold intReprChars
    by_cases hneg : s < 0
    · rw [if_pos hneg, parseDecChars, if_pos rfl,
        parseDecCore_digits _ (natReprChars_ne_nil _) (natReprChars_digits _),
        valBE_natReprChars, Option.map_some']
      refine congrArg some ?_
      show (-((s.natAbs : Nat) : Int), 0) = (s, k)
      rw [Prod.mk.injEq]
      exact ⟨by omega, hk.symm⟩
    · rw [if_neg hneg]
      obtain ⟨c, t, hct⟩ : ∃ c t, natReprChars s.natAbs = c :: t := by
        cases h : natReprChars s.natAbs with
        | nil => exact absurd h (natReprChars_ne_nil _)
        | cons c t => exact ⟨c, t, rfl⟩
      have hdig : isDigitCh c = true :=
        natReprChars_digits s.natAbs c (by rw [hct]; simp)
      obtain ⟨h1, h2, _⟩ := isDigitCh_ne_signs hdig
      rw [hct, parseDecChars, if_neg h1, if_neg h2, ← hct,
        parseDecCore_digits _ (natReprChars_ne_nil _) (natReprChars_digits _),
        valBE_natReprChars, Option.map_some']
      refine congrArg some ?_
      show (((s.natAbs : Nat) : Int), 0) = (s, k)
      rw [Prod.mk.injEq]
      exact ⟨by omega, hk.symm⟩
  · unfold decReprChars
    rw [if_neg hk]
    obtain ⟨ds, hds⟩ : ∃ ds, padDigits s k = ds := ⟨_, rfl⟩
    rw [hds]
    have hdsdig : ∀ c ∈ ds, isDigitCh c = true := by
      intro c hc
      rw [← hds, padDigits, List.mem_append] at hc
      rcases hc with h | h
      · rw [List.eq_of_mem_replicate h]; decide
      · exact natReprChars_digits _ c h
    have hlen : k + 1 ≤ ds.length := by
      rw [← hds, padDigits, List.length_append, List.length_replicate]
      have h1 := natReprChars_ne_nil s.natAbs
      have h2 : 1 ≤ (natReprChars s.natAbs).length :=
        Nat.one_le_iff_ne_zero.mpr (fun h => h1 (List.length_eq_zero.mp h))
      omega
    have hval : valBE ds = s.natAbs := by
      rw [← hds, padDigits, valBE_pad, valBE_natReprChars]
    obtain ⟨a, hta⟩ : ∃ a, ds.take (ds.length - k) = a := ⟨_, rfl⟩
    obtain ⟨b, htb⟩ : ∃ b, ds.drop (ds.length - k) = b := ⟨_, rfl⟩
    have hab : a ++ b = ds := by rw [← hta, ← htb]; exact List.take_append_drop _ _
    have halen : a.length = ds.length - k := by rw [← hta, List.length_take]; omega
    have hblen : b.length = k := by rw [← htb, List.length_drop]; omega
    have ha0 : a ≠ [] := by
      intro h
      rw [h] at halen
      simp at halen
      omega
    have hadig : ∀ c ∈ a, isDigitCh c = true := fun c hc =>
      hdsdig c (List.mem_of_mem_take (hta ▸ hc))
    have hbdig : ∀ c ∈ b, isDigitCh c = true := fun c hc =>
      hdsdig c (List.mem_of_mem_drop (htb ▸ hc))
    rw [hta, htb]
    by_cases hneg : s < 0
    · simp only [hneg, if_true]
      rw [List.singleton_append, List.cons_append,
        parseDecChars_split_neg a b ha0 hadig hbdig, hab, hval, hblen]
      refine congrArg some ?_
      show (-((s.natAbs : Nat) : Int), k) = (s, k)
      rw [Prod.mk.injEq]
      exact ⟨by omega, rfl⟩
    · simp only [hneg, if_false, List.nil_append]
      rw [parseDecChars_split_pos a b ha0 hadig hbdig, hab, hval, hblen]
      refine congrArg some ?_
      show (((s.natAbs : Nat) : Int), k) = (s, k)
      rw [Prod.mk.injEq]
      exact ⟨by omega, rfl⟩

/-- Rust `usize::from_str` on a 64-bit target: optional leading `+`, then
a nonempty digit run whose value fits in 64 bits. -/
def parseUsizeChars (cs : List Char) : Option Nat :=
  match cs with
  | [] => none
  | c :: rest =>
    if c = '+' then
      (parseNatChars rest).bind (fun n => if n < 2 ^ 64 then some n else none)
    else
      (parseNatChars (c :: rest)).bind
        (fun n => if n < 2 ^ 64 then some n else none)

/-- Is the byte an ASCII decimal digit? -/
def isDigitByte (b : Nat) : Bool := 48 ≤ b && b ≤ 57

/-- Big-endian value of an ASCII digit byte list. -/
def valBEBytes (bs : List Nat) : Nat :=
  bs.foldl (fun a b => a * 10 + (b - 48)) 0

/-- Byte-level analogue of `parseNatChars`. -/
def parseNatBytes (bs : List Nat) : Option Nat :=
  if bs ≠ [] ∧ bs.all isDigitByte then some (valBEBytes bs) else none

/-- Byte-level analogue of `parseUsizeChars` (`+` is byte 43). -/
def parseUsizeBytes (bs : List Nat) : Option Nat :=
  match bs with
  | [] => none
  | b :: rest =>
    if b = 43 then
      (parseNatBytes rest).bind (fun n => if n < 2 ^ 64 then some n else none)
    else
      (parseNatBytes (b :: rest)).bind
        (fun n => if n < 2 ^ 64 then some n else none)

/-! ## The Value model and XML codec

`src/xmlfmt` is absent from the source tree (only `xmlfmt/tests.rs`
exists), so this component is modelled from the spec, §3 and §4.1: the
tagged-union `Value`, `Call` and protocol `Response`, and the
encoder/decoder over the fixed XML tag vocabulary.  XML text is
represented by its element tree; whitespace layout and character
escaping sit below this model.  A `Struct` is modelled as the ordered
association list of its members, and a `Double`'s 64-bit float payload
by its exact decimal value (integer significand and scale). -/

/-- Modelled from the spec: an XML fragment — an element with a tag and
children, or a text node. -/
inductive Xml where
  | el (tag : String) (children : List Xml)
  | txt (s : String)

/-- Modelled from the spec, §3: the tagged-union wire value. -/
inductive Value where
  | str (s : String)
  | int (i : Int)
  | bool (b : Bool)
  | double (sig : Int) (scale : Nat)
  | dateTime (s : String)
  | base64 (s : String)
  | array (items : List Value)
  | strct (fields : List (String × Value))

/-- Modelled from the spec, §3: a Call is a method name plus ordered
params. -/
structure CallValue where
  name : String
  params : List Value

/-- Modelled from the spec, §3: a protocol Response is Success or
Fault. -/
inductive ResponseV where
  | success (params : List Value)
  | fault (code : Int) (message : String)

mutual
/-- Modelled from the spec, §4.1: the encoder for a Value (elementwise
inverse of the decoder). -/
def encodeValue : Value → Xml
  | .str s => .el "string" [.txt s]
  | .int i => .el "int" [.txt ⟨intReprChars i⟩]
  | .bool b => .el "boolean" [.txt (if b then "1" else "0")]
  | .double sig sc => .el "double" [.txt ⟨decReprChars sig sc⟩]
  | .dateTime s => .el "dateTime.iso8601" [.txt s]
  | .base64 s => .el "base64" [.txt s]
  | .array items => .el "array" [.el "data" (encodeValues items)]
  | .strct fields => .el "struct" (encodeMembers fields)

def encodeValues : List Value → List Xml
  | [] => []
  | v :: vs => .el "value" [encodeValue v] :: encodeValues vs

def encodeMembers : List (String × Value) → List Xml
  | [] => []
  | (n, v) :: ms =>
    .el "member" [.el "name" [.txt n], .el "value" [encodeValue v]]
      :: encodeMembers ms
end

/-- Scalar element content: an empty child list decodes to the empty
string (`<string/>`), a single text node to its text. -/
def getText : List Xml → Option String
  | [] => some ""
  | [.txt s] => some s
  | _ => none

/-- Modelled from the spec, §4.2 error taxonomy: a single decode-error
kind. -/
inductive DecErr where
  | fail
deriving DecidableEq

/-- Last-write-wins insertion for struct members (the spec's HashMap
semantics: a duplicate name overwrites the previously seen value). -/
def upsert (acc : List (String × Value)) (n : String) (v : Value) :
    List (String × Value) :=
  if acc.any (fun p => p.1 = n) then
    acc.map (fun p => if p.1 = n then (n, v) else p)
  else acc ++ [(n, v)]

/-- Resolve duplicate member names, last write wins. -/
def dedupKeys (ms : List (String × Value)) : List (String × Value) :=
  ms.foldl (fun acc p => upsert acc p.1 p.2) []

mutual
/-- Modelled from the spec, §4.1: recursive-descent decoding of a Value
over the fixed tag vocabulary.  Scalar content is read through
`getText`; any tag outside the vocabulary is a decode error. -/
def parseXmlValue : Xml → Except DecErr Value
  | .txt _ => .error .fail
  | .el tag children =>
    if tag = "string" then
      (getText children).elim (.error .fail) (fun s => .ok (.str s))
    else if tag = "int" ∨ tag = "i4" then
      (getText children).elim (.error .fail) (fun s =>
        (parseI32Chars s.data).elim (.error .fail) (fun i => .ok (.int i)))
    else if tag = "boolean" then
      (getText children).elim (.error .fail) (fun s =>
        if s = "1" then .ok (.bool true)
        else if s = "0" then .ok (.bool false)
        else .error .fail)
    else if tag = "double" then
      (getText children).elim (.error .fail) (fun s =>
        (parseDecChars s.data).elim (.error .fail)
          (fun p => .ok (.double p.1 p.2)))
    else if tag = "dateTime.iso8601" then
      (getText children).elim (.error .fail) (fun s => .ok (.dateTime s))
    else if tag = "base64" then
      (getText children).elim (.error .fail) (fun s => .ok (.base64 s))
    else if tag = "array" then parseArrayData children
    else if tag = "struct" then
      (parseMembers children).map (fun ms => .strct (dedupKeys ms))
    else .error .fail

/-- An `array` holds exactly one `data` element listing the values. -/
def parseArrayData : List Xml → Except DecErr Value
  | [.el dt vs] =>
    if dt = "data" then (parseValues vs).map .array else .error .fail
  | _ => .error .fail

def parseValues : List Xml → Except DecErr (List Value)
  | [] => .ok []
  | .el t [inner] :: rest =>
    if t = "value" then
      match parseXmlValue inner, parseValues rest with
      | .ok v, .ok vs => .ok (v :: vs)
      | _, _ => .error .fail
    else .error .fail
  | _ => .error .fail

def parseMembers : List Xml → Except DecErr (List (String × Value))
  | [] => .ok []
  | .el mt [.el nt nc, .el vt [inner]] :: rest =>
    if mt = "member" ∧ nt = "name" ∧ vt = "value" then
      match getText nc with
      | some n =>
        match parseXmlValue inner, parseMembers rest with
        | .ok v, .ok ms => .ok ((n, v) :: ms)
        | _, _ => .error .fail
      | none => .error .fail
    else .error .fail
  | _ => .error .fail
end

/-- Modelled from the spec, §4.1: params are `param` wrappers each
holding one `value`. -/
def encodeParamList : List Value → List Xml
  | [] => []
  | v :: vs =>
    .el "param" [.el "value" [encodeValue v]] :: encodeParamList vs

/-- Modelled from the spec, §4.1: render a Call as a `methodCall`
element. -/
def encodeCall (c : CallValue) : Xml :=
  .el "methodCall"
    [.el "methodName" [.txt c.name], .el "params" (encodeParamList c.params)]

/-- Modelled from the spec, §4.1: render a protocol Response as a
`methodResponse` element (fault struct has `faultCode` and
`faultString`). -/
def encodeResp : ResponseV → Xml
  | .success params => .el "methodResponse" [.el "params" (encodeParamList params)]
  | .fault c m =>
    .el "methodResponse"
      [.el "fault" [.el "value"
        [encodeValue (.strct [("faultCode", .int c), ("faultString", .str m)])]]]

/-- Decode an ordered sequence of `param` wrappers. -/
def parseParamList : List Xml → Except DecErr (List Value)
  | [] => .ok []
  | .el t [.el t2 [inner]] :: rest =>
    if t = "param" ∧ t2 = "value" then
      match parseXmlValue inner, parseParamList rest with
      | .ok v, .ok vs => .ok (v :: vs)
      | _, _ => .error .fail
    else .error .fail
  | _ => .error .fail

/-- Modelled from the spec, §4.1 Call decoding: `methodCall` holding a
`methodName` text element and an optional `params` element; a missing
`methodName` is a decode error. -/
def parseCallX : Xml → Except DecErr CallValue
  | .el t children =>
    if t = "methodCall" then
      match children with
      | [.el nt nc] =>
        if nt = "methodName" then
          match getText nc with
          | some n => .ok ⟨n, []⟩
          | none => .error .fail
        else .error .fail
      | [.el nt nc, .el pt ps] =>
        if nt = "methodName" ∧ pt = "params" then
          match getText nc with
          | some n => (parseParamList ps).map (fun vs => ⟨n, vs⟩)
          | none => .error .fail
        else .error .fail
      | _ => .error .fail
    else .error .fail
  | _ => .error .fail

/-- Decode the fault struct: members named exactly `faultCode` (integer)
and `faultString` (string), in either order. -/
def parseFaultStruct : List (String × Value) → Except DecErr ResponseV
  | [(n1, .int c), (n2, .str m)] =>
    if n1 = "faultCode" ∧ n2 = "faultString" then .ok (.fault c m)
    else .error .fail
  | [(n1, .str m), (n2, .int c)] =>
    if n1 = "faultString" ∧ n2 = "faultCode" then .ok (.fault c m)
    else .error .fail
  | _ => .error .fail

/-- The `fault` element wraps a single `value` that must decode to the
fault struct. -/
def parseFaultBody : List Xml → Except DecErr ResponseV
  | [.el vt [inner]] =>
    if vt = "value" then
      match parseXmlValue inner with
      | .ok (.strct ms) => parseFaultStruct ms
      | _ => .error .fail
    else .error .fail
  | _ => .error .fail

/-- Modelled from the spec, §4.1 Response decoding: `methodResponse`
holding either a `params` element (Success) or a `fault` element
wrapping a struct value (Fault). -/
def parseRespX : Xml → Except DecErr ResponseV
  | .el t children =>
    if t = "methodResponse" then
      match children with
      | [.el pt ps] =>
        if pt = "params" then (parseParamList ps).map .success
        else if pt = "fault" then parseFaultBody ps
        else .error .fail
      | _ => .error .fail
    else .error .fail
  | _ => .error .fail

mutual
/-- Well-formedness per the spec's grammar, §3: `Int` payloads are 32-bit
signed, struct member names are unique within one struct. -/
def Value.wfB : Value → Bool
  | .int i => decide (-(2 ^ 31) ≤ i ∧ i < 2 ^ 31)
  | .array items => wfList items
  | .strct fields => wfMembers fields && decide (fields.map Prod.fst).Nodup
  | _ => true

def wfList : List Value → Bool
  | [] => true
  | v :: vs => Value.wfB v && wfList vs

def wfMembers : List (String × Value) → Bool
  | [] => true
  | (_, v) :: ms => Value.wfB v && wfMembers ms
end

/-- Well-formedness of a Call: its params are well-formed. -/
def CallValue.wfB (c : CallValue) : Bool := wfList c.params

/-- Well-formedness of a protocol Response: params well-formed; a fault
code is a 32-bit signed integer. -/
def ResponseV.wfB : ResponseV → Bool
  | .success params => wfList params
  | .fault c _ => decide (-(2 ^ 31) ≤ c ∧ c < 2 ^ 31)

theorem strDataMk (cs : List Char) : (⟨cs⟩ : String).data = cs := rfl

theorem Value.inductionStrong (P : Value → Prop)
    (hstr : ∀ s, P (.str s)) (hint : ∀ i, P (.int i))
    (hbool : ∀ b, P (.bool b)) (hdouble : ∀ sig sc, P (.double sig sc))
    (hdate : ∀ s, P (.dateTime s)) (hb64 : ∀ s, P (.base64 s))
    (harr : ∀ items, (∀ x ∈ items, P x) → P (.array items))
    (hstruct : ∀ fields, (∀ p ∈ fields, P p.2) → P (.strct fields)) :
    ∀ v, P v := by
  have key : ∀ n v, sizeOf v ≤ n → P v := by
    intro n
    induction n with
    | zero =>
      intro v hv
      exfalso
      cases v <;> simp at hv
    | succ n ih =>
      intro v hv
      cases v with
      | str s => exact hstr s
      | int i => exact hint i
      | bool b => exact hbool b
      | double sig sc => exact hdouble sig sc
      | dateTime s => exact hdate s
      | base64 s => exact hb64 s
      | array items =>
        refine harr items (fun x hx => ih x ?_)
        have h1 := List.sizeOf_lt_of_mem hx
        have h2 : sizeOf (Value.array items) = 1 + sizeOf items := by simp
        omega
      | strct fields =>
        refine hstruct fields (fun p hp => ih p.2 ?_)
        have h1 := List.sizeOf_lt_of_mem hp
        have h2 : sizeOf p.2 < sizeOf p := by
          obtain ⟨a, b⟩ := p
          simp
        have h3 : sizeOf (Value.strct fields) = 1 + sizeOf fields := by simp
        omega
  exact fun v => key (sizeOf v) v le_rfl

theorem wfList_mem {items : List Value} (h : wfList items = true) :
    ∀ x ∈ items, Value.wfB x = true := by
  induction items with
  | nil => simp
  | cons v vs ih =>
    rw [wfList, Bool.and_eq_true] at h
    intro x hx
    rcases List.mem_cons.mp hx with rfl | hx
    · exact h.1
    · exact ih h.2 x hx

theorem wfMembers_mem {fields : List (String × Value)}
    (h : wfMembers fields = true) : ∀ p ∈ fields, Value.wfB p.2 = true := by
  induction fields with
  | nil => simp
  | cons p ms ih =>
    obtain ⟨n, v⟩ := p
    rw [wfMembers, Bool.and_eq_true] at h
    intro q hq
    rcases List.mem_cons.mp hq with rfl | hq
    · exact h.1
    · exact ih h.2 q hq

theorem dedupKeys_foldl (fields : List (String × Value)) :
    ∀ acc : List (String × Value),
      (fields.map Prod.fst).Nodup →
      (∀ p ∈ fields, ∀ q ∈ acc, q.1 ≠ p.1) →
      fields.foldl (fun acc p => upsert acc p.1 p.2) acc = acc ++ fields := by
  induction fields with
  | nil => intro acc _ _; simp
  | cons p rest ih =>
    intro acc hnd hdisj
    rw [List.foldl_cons]
    have hup : upsert acc p.1 p.2 = acc ++ [p] := by
      have hnotin : ¬(acc.any fun q => decide (q.1 = p.1)) = true := by
        intro h
        rw [List.any_eq_true] at h
        obtain ⟨q, hq, hq2⟩ := h
        exact hdisj p (by simp) q hq (by simpa using hq2)
      unfold upsert
      rw [if_neg hnotin, Prod.mk.eta]
    rw [List.map_cons, List.nodup_cons] at hnd
    have hdisj2 : ∀ r ∈ rest, ∀ q ∈ acc ++ [p], q.1 ≠ r.1 := by
      intro r hr q hq
      rcases List.mem_append.mp hq with hq | hq
      · exact hdisj r (by simp [hr]) q hq
      · have hqp : q = p := by simpa using hq
        subst hqp
        intro hqr
        exact hnd.1 (by rw [hqr]; exact List.mem_map_of_mem Prod.fst hr)
    rw [hup, ih (acc ++ [p]) hnd.2 hdisj2]
    simp

theorem dedupKeys_eq_self (fields : List (String × Value))
    (h : (fields.map Prod.fst).Nodup) : dedupKeys fields = fields := by
  unfold dedupKeys
  rw [dedupKeys_foldl fields [] h (by simp)]
  simp

theorem parseValues_encodeValues (items : List Value)
    (ih : ∀ x ∈ items, Value.wfB x = true → parseXmlValue (encodeValue x) = .ok x)
    (hwf : wfList items = true) :
    parseValues (encodeValues items) = .ok items := by
  induction items with
  | nil => rw [encodeValues, parseValues]
  | cons v vs ihl =>
    rw [wfList, Bool.and_eq_true] at hwf
    rw [encodeValues, parseValues, if_pos rfl, ih v (by simp) hwf.1,
      ihl (fun x hx hw => ih x (by simp [hx]) hw) hwf.2]

theorem parseMembers_encodeMembers (fields : List (String × Value))
    (ih : ∀ p ∈ fields, Value.wfB p.2 = true → parseXmlValue (encodeValue p.2) = .ok p.2)
    (hwf : wfMembers fields = true) :
    parseMembers (encodeMembers fields) = .ok fields := by
  induction fields with
  | nil => rw [encodeMembers, parseMembers]
  | cons p ms ihl =>
    obtain ⟨n, v⟩ := p
    rw [wfMembers, Bool.and_eq_true] at hwf
    rw [encodeMembers, parseMembers, if_pos ⟨rfl, rfl, rfl⟩]
    have hg : getText [Xml.txt n] = some n := rfl
    rw [hg, ih (n, v) (by simp) hwf.1,
      ihl (fun q hq hw => ih q (by simp [hq]) hw) hwf.2]

theorem parseXmlValue_encodeValue (v : Value) :
    Value.wfB v = true → parseXmlValue (encodeValue v) = .ok v := by
  induction v using Value.inductionStrong with
  | hstr s =>
    intro _
    rw [encodeValue, parseXmlValue, if_pos rfl]
    rfl
  | hint i =>
    intro h
    rw [Value.wfB] at h
    have hrange := of_decide_eq_true h
    rw [encodeValue, parseXmlValue, if_neg (by decide), if_pos (Or.inl rfl),
      show getText [Xml.txt ⟨intReprChars i⟩] = some ⟨intReprChars i⟩ from rfl,
      Option.elim_some,
      show (⟨intReprChars i⟩ : String).data = intReprChars i from rfl,
      parseI32Chars_intReprChars i hrange]
    rfl
  | hbool b =>
    intro _
    cases b <;>
      rw [encodeValue, parseXmlValue, if_neg (by decide), if_neg (by decide),
        if_pos rfl] <;> rfl
  | hdouble sig sc =>
    intro _
    rw [encodeValue, parseXmlValue, if_neg (by decide), if_neg (by decide),
      if_neg (by decide), if_pos rfl,
      show getText [Xml.txt ⟨decReprChars sig sc⟩]
        = some ⟨decReprChars sig sc⟩ from rfl,
      Option.elim_some,
      show (⟨decReprChars sig sc⟩ : String).data = decReprChars sig sc from rfl,
      parseDecChars_decReprChars]
    rfl
  | hdate s =>
    intro _
    rw [encodeValue, parseXmlValue, if_neg (by decide), if_neg (by decide),
      if_neg (by decide), if_neg (by decide), if_pos rfl]
    rfl
  | hb64 s =>
    intro _
    rw [encodeValue, parseXmlValue, if_neg (by decide), if_neg (by decide),
      if_neg (by decide), if_neg (by decide), if_neg (by decide), if_pos rfl]
    rfl
  | harr items ih =>
    intro h
    rw [Value.wfB] at h
    rw [encodeValue, parseXmlValue, if_neg (by decide), if_neg (by decide),
      if_neg (by decide), if_neg (by decide), if_neg (by decide),
      if_neg (by decide), if_pos rfl, parseArrayData, if_pos rfl,
      parseValues_encodeValues items ih h]
    rfl
  | hstruct fields ih =>
    intro h
    rw [Value.wfB, Bool.and_eq_true] at h
    rw [encodeValue, parseXmlValue, if_neg (by decide), if_neg (by decide),
      if_neg (by decide), if_neg (by decide), if_neg (by decide),
      if_neg (by decide), if_neg (by decide), if_pos rfl,
      parseMembers_encodeMembers fields ih h.1]
    have hnd := of_decide_eq_true h.2
    show Except.ok (Value.strct (dedupKeys fields)) = Except.ok (Value.strct fields)
    rw [dedupKeys_eq_self fields hnd]

theorem parseParamList_encodeParamList (params : List Value)
    (hwf : wfList params = true) :
    parseParamList (encodeParamList params) = .ok params := by
  induction params with
  | nil => rw [encodeParamList, parseParamList]
  | cons v vs ih =>
    rw [wfList, Bool.and_eq_true] at hwf
    rw [encodeParamList, parseParamList, if_pos ⟨rfl, rfl⟩,
      parseXmlValue_encodeValue v hwf.1, ih hwf.2]

theorem parseCallX_encodeCall (c : CallValue) (h : CallValue.wfB c = true) :
    parseCallX (encodeCall c) = .ok c := by
  obtain ⟨n, params⟩ := c
  rw [CallValue.wfB] at h
  rw [encodeCall, parseCallX, if_pos rfl, if_pos ⟨rfl, rfl⟩,
    show getText [Xml.txt n] = some n from rfl,
    parseParamList_encodeParamList params h]
  rfl

theorem parseRespX_encodeResp (r : ResponseV) (h : ResponseV.wfB r = true) :
    parseRespX (encodeResp r) = .ok r := by
  cases r with
  | success params =>
    rw [ResponseV.wfB] at h
    rw [encodeResp, parseRespX, if_pos rfl, if_pos rfl,
      parseParamList_encodeParamList params h]
    rfl
  | fault c m =>
    rw [ResponseV.wfB] at h
    have hrange := of_decide_eq_true h
    have hv : Value.wfB
        (.strct [("faultCode", Value.int c), ("faultString", Value.str m)])
          = true := by
      simp [Value.wfB, wfMembers]
      exact hrange
    rw [encodeResp, parseRespX, if_pos rfl, if_neg (by decide), if_pos rfl,
      parseFaultBody, if_pos rfl, parseXmlValue_encodeValue _ hv]
    rfl

/-- C1: for every Value constructible from the Value Model's grammar
(32-bit `Int` payloads, unique struct member names), and likewise for
every Call and every protocol Response, decoding the XML produced by
encoding yields a value equal to the original:
`decode (encode v) = ok v`. -/
theorem claim_C1_roundtrip (v : Value) (c : CallValue) (r : ResponseV)
    (hv : Value.wfB v = true) (hc : CallValue.wfB c = true)
    (hr : ResponseV.wfB r = true) :
    parseXmlValue (encodeValue v) = .ok v
      ∧ parseCallX (encodeCall c) = .ok c
      ∧ parseRespX (encodeResp r) = .ok r :=
  ⟨parseXmlValue_encodeValue v hv, parseCallX_encodeCall c hc,
    parseRespX_encodeResp r hr⟩

/-- Witness for C1 at the test suite's concrete data: the two-member
struct, a `foobar` call, and the `Too many parameters.` fault. -/
theorem claim_C1_roundtrip_witness :
    parseXmlValue (encodeValue
        (.strct [("foo", .int 42), ("bar", .str "baz")]))
      = .ok (.strct [("foo", .int 42), ("bar", .str "baz")])
    ∧ parseCallX (encodeCall ⟨"foobar", [.str "South Dakota"]⟩)
      = .ok ⟨"foobar", [.str "South Dakota"]⟩
    ∧ parseRespX (encodeResp (.fault 4 "Too many parameters."))
      = .ok (.fault 4 "Too many parameters.") :=
  claim_C1_roundtrip _ _ _
    (by simp [Value.wfB, wfMembers, List.nodup_cons])
    (by simp [CallValue.wfB, wfList, Value.wfB])
    (by simp [ResponseV.wfB])

/-! ## Dispatcher (src/server.rs)

The Rust `Response` type of the codec is `Result<Params, Fault>`; it is
named `RpcResponse` here to keep it apart from the HTTP `Response`. -/

/-- `Fault` from the codec (`Fault::new(code, message)`). -/
structure Fault where
  code : Int
  message : String
deriving DecidableEq

/-- `Fault::new`. -/
def Fault.new (code : Int) (message : String) : Fault := ⟨code, message⟩

/-- The protocol-level result type `Result<Vec<Value>, Fault>`. -/
abbrev RpcResponse := Except Fault (List Value)

/-- `Server` from src/server.rs: the handler registry (the `HashMap` is
modelled as a lookup function, exact string match) and the configurable
missing-method handler. -/
structure Server where
  handlers : String → Option (List Value → RpcResponse)
  onMissingMethod : List Value → RpcResponse

/-- `on_missing_method` from src/server.rs lines 32-34. -/
def onMissingMethodDefault (_ : List Value) : RpcResponse :=
  .error (Fault.new 404 "Requested method does not exist")

/-- `Server::new` / `Server::default`. -/
def Server.new : Server := ⟨fun _ => none, onMissingMethodDefault⟩

/-- `Server::register_value`: insert into the registry (a `HashMap`
insert overwrites any previous entry for the same name). -/
def Server.registerValue (s : Server) (name : String)
    (handler : List Value → RpcResponse) : Server :=
  { s with handlers := fun n => if n = name then some handler else s.handlers n }

/-- `Server::set_on_missing`. -/
def Server.setOnMissing (s : Server)
    (handler : List Value → RpcResponse) : Server :=
  { s with onMissingMethod := handler }

/-- `Server::handle`:
`self.handlers.get(&req.name).unwrap_or(&self.on_missing_method)(req.params)`. -/
def Server.handle (s : Server) (req : CallValue) : RpcResponse :=
  ((s.handlers req.name).getD s.onMissingMethod) req.params

/-! ## HTTP Response builder (src/http/response.rs)

`Header`, `StatusCode` and `HTTPVersion` live in the absent
`http/common.rs`; per the spec a header is a field/value pair with
case-insensitive (ASCII) field equivalence.  Bodies are `String`s whose
characters stand for the bytes Rust writes. -/

/-- Modelled from the spec: a response header (field, value). -/
structure RHeader where
  field : String
  value : String
deriving DecidableEq

/-- ASCII lowercase of a character. -/
def lowerCh (c : Char) : Char :=
  if 'A' ≤ c ∧ c ≤ 'Z' then Char.ofNat (c.toNat + 32) else c

/-- ASCII lowercase of a string. -/
def lowerStr (s : String) : String := ⟨s.data.map lowerCh⟩

/-- Modelled from the spec: `HeaderField::equiv`, ASCII
case-insensitive comparison. -/
def equivStr (a b : String) : Bool := decide (lowerStr a = lowerStr b)

/-- `Response` from src/http/response.rs: status code, builder-mutable
headers, optional data and recorded data length. -/
structure HttpResponse where
  statusCode : Nat
  headers : List RHeader
  data : Option String
  dataLength : Nat
deriving DecidableEq

/-- Overwrite the value of the first `Content-Type` header in place
(`iter_mut().find(...)` in `Response::add_header`). -/
def overwriteFirstCT : List RHeader → String → List RHeader
  | [], _ => []
  | q :: rest, v =>
    if equivStr q.field "Content-Type" then { q with value := v } :: rest
    else q :: overwriteFirstCT rest v

/-- `Response::add_header` (src/http/response.rs lines 114-149): drop the
four protected fields; `Content-Length` overwrites `data_length` (when
its value parses) and never lands in the list; `Content-Type` overwrites
an existing `Content-Type` in place; everything else is appended. -/
def HttpResponse.addHeader (r : HttpResponse) (h : RHeader) : HttpResponse :=
  if equivStr h.field "Connection" || equivStr h.field "Trailer"
      || equivStr h.field "Transfer-Encoding" || equivStr h.field "Upgrade" then
    r
  else if equivStr h.field "Content-Length" then
    match parseUsizeChars h.value.data with
    | some val => { r with dataLength := val }
    | none => r
  else if equivStr h.field "Content-Type" then
    if r.headers.any (fun q => equivStr q.field "Content-Type") then
      { r with headers := overwriteFirstCT r.headers h.value }
    else { r with headers := r.headers ++ [h] }
  else { r with headers := r.headers ++ [h] }

/-- `Response::new`: start from an empty header list and route every
given header through `add_header`. -/
def HttpResponse.new (statusCode : Nat) (headers : List RHeader)
    (data : Option String) (dataLength : Nat) : HttpResponse :=
  headers.foldl HttpResponse.addHeader
    { statusCode := statusCode, headers := [], data := data,
      dataLength := dataLength }

/-- `Response::with_header`. -/
def HttpResponse.withHeader (r : HttpResponse) (h : RHeader) : HttpResponse :=
  r.addHeader h

/-- `Response::with_status_code`. -/
def HttpResponse.withStatusCode (r : HttpResponse) (code : Nat) : HttpResponse :=
  { r with statusCode := code }

/-- `Response::with_data`. -/
def HttpResponse.withData (r : HttpResponse) (data : Option String)
    (dataLength : Nat) : HttpResponse :=
  { r with data := data, dataLength := dataLength }

/-- `Response::empty_400`. -/
def HttpResponse.empty400 : HttpResponse := HttpResponse.new 400 [] none 0

/-- `Response::from_data` (`data_length` is the data's length, 0 when
absent). -/
def HttpResponse.fromData (contentType : String) (data : Option String) :
    HttpResponse :=
  HttpResponse.new 200 [⟨"Content-Type", contentType⟩] data
    (match data with
     | some d => d.length
     | none => 0)

/-- Decimal string of a natural number. -/
def natReprStr (n : Nat) : String := ⟨natReprChars n⟩

/-- The synthesized `Server` header value (src/http/response.rs line
208). -/
def serverDefaultName : String := "Xml Rpc ArceOS (Rust)"

/-- The finalized message `raw_print` writes: status line fields, final
header list, and the body actually sent. -/
structure HttpOutMessage where
  version : Nat × Nat
  status : Nat
  headers : List RHeader
  body : String
deriving DecidableEq

/-- `Response::raw_print` (src/http/response.rs lines 194-244): insert
`Date` then `Server` at the front when absent, suppress the body for
1xx/204/304 or on caller request, always append one `Content-Length`
header holding the recorded data length, and write with the hard-coded
version `HTTP/1.0`.  `now` stands for the HTTP-date of the send time. -/
def HttpResponse.finalize (r : HttpResponse) (now : String)
    (doNotSendBody : Bool) : HttpOutMessage :=
  let hs1 := if r.headers.any (fun h => equivStr h.field "Date") then r.headers
             else ⟨"Date", now⟩ :: r.headers
  let hs2 := if hs1.any (fun h => equivStr h.field "Server") then hs1
             else ⟨"Server", serverDefaultName⟩ :: hs1
  let dnsb := doNotSendBody || decide (100 ≤ r.statusCode ∧ r.statusCode ≤ 199)
      || decide (r.statusCode = 204) || decide (r.statusCode = 304)
  { version := (1, 0), status := r.statusCode,
    headers := hs2 ++ [⟨"Content-Length", natReprStr r.dataLength⟩],
    body :=
      if dnsb then ""
      else
        match r.data with
        | some d => if 1 ≤ r.dataLength then d else ""
        | none => "" }

/-- Modelled from the spec: `StatusCode::default_reason_phrase` for the
codes this system emits. -/
def reasonPhrase (code : Nat) : String :=
  if code = 200 then "OK"
  else if code = 204 then "No Content"
  else if code = 304 then "Not Modified"
  else if code = 400 then "Bad Request"
  else if code = 404 then "Not Found"
  else if code = 500 then "Internal Server Error"
  else "Unknown"

/-- `write_message_header` followed by the body: the byte stream of a
finalized response. -/
def HttpOutMessage.render (m : HttpOutMessage) : String :=
  "HTTP/" ++ natReprStr m.version.1 ++ "." ++ natReprStr m.version.2 ++ " "
    ++ natReprStr m.status ++ " " ++ reasonPhrase m.status ++ "\r\n"
    ++ String.join (m.headers.map (fun h => h.field ++ ": " ++ h.value ++ "\r\n"))
    ++ "\r\n" ++ m.body

/-- Responses constructible through the public builder API of
`src/http/response.rs`. -/
inductive HttpResponse.Reachable : HttpResponse → Prop
  | new (code : Nat) (hs : List RHeader) (data : Option String) (n : Nat) :
      Reachable (HttpResponse.new code hs data n)
  | withHeader {r : HttpResponse} (h : RHeader) :
      Reachable r → Reachable (r.withHeader h)
  | withStatusCode {r : HttpResponse} (code : Nat) :
      Reachable r → Reachable (r.withStatusCode code)
  | withData {r : HttpResponse} (data : Option String) (n : Nat) :
      Reachable r → Reachable (r.withData data n)

mutual
/-- Render an XML tree to text (the `to_xml`/`Display` side of the
codec; the model writes tags and verbatim content). -/
def Xml.render : Xml → String
  | .txt s => s
  | .el tag cs => "<" ++ tag ++ ">" ++ renderChildren cs ++ "</" ++ tag ++ ">"

def renderChildren : List Xml → String
  | [] => ""
  | x :: xs => Xml.render x ++ renderChildren xs
end

/-- Convert the dispatcher's `Result` into the wire response shape. -/
def toResponseV : RpcResponse → ResponseV
  | .ok params => .success params
  | .error f => .fault f.code f.message

/-- `res.to_xml()` in `Server::handle_outer`. -/
def responseToXml (res : RpcResponse) : String :=
  (encodeResp (toResponseV res)).render

/-! ## Byte-level XML reading (for `parse::call` on a request body)

Modelled from the spec: a minimal XML text reader producing the element
tree the tag-level decoder consumes.  It skips an optional XML
declaration and whitespace-only text runs; attributes and escaping are
below this model. -/

/-- String from a byte list (each byte read as a character). -/
def strOfBytes (bs : List Nat) : String := ⟨bs.map (fun b => Char.ofNat b)⟩

/-- Byte list of an ASCII string. -/
def asciiBytes (s : String) : List Nat := s.data.map Char.toNat

/-- Is the byte ASCII whitespace (space, tab, LF, CR)? -/
def isXmlWs (b : Nat) : Bool := b = 32 || b = 9 || b = 10 || b = 13

/-- Drop leading whitespace bytes. -/
def skipWsB : List Nat → List Nat
  | [] => []
  | b :: rest => if isXmlWs b then skipWsB rest else b :: rest

/-- Drop through the end (`?>`) of an XML declaration. -/
def dropDeclEnd : List Nat → List Nat
  | [] => []
  | 63 :: 62 :: rest => rest
  | _ :: rest => dropDeclEnd rest

/-- Skip an optional `<?xml ... ?>` declaration. -/
def skipDecl : List Nat → List Nat
  | 60 :: 63 :: rest => dropDeclEnd rest
  | bs => bs

/-- May the byte appear in a tag name? -/
def isNameByte (b : Nat) : Bool :=
  !(b = 60 || b = 62 || b = 47 || b = 63 || isXmlWs b)

/-- Scan past an opening tag's remainder up to `>`; reports whether the
tag was self-closing (`/>`). -/
def afterTag (bs : List Nat) : Option (Bool × List Nat) :=
  match bs.dropWhile (fun b => b ≠ 62) with
  | 62 :: r =>
    some (decide ((bs.takeWhile (fun b => b ≠ 62)).getLast? = some 47), r)
  | _ => none

/-- Match a closing tag `</name>` (whitespace allowed before `>`). -/
def expectCloseB (nameB : List Nat) (bs : List Nat) : Option (List Nat) :=
  match bs with
  | 60 :: 47 :: rest =>
    if rest.take nameB.length = nameB then
      match skipWsB (rest.drop nameB.length) with
      | 62 :: r => some r
      | _ => none
    else none
  | _ => none

mutual
/-- Parse one element from the byte stream (fuel-structural). -/
def parseElemB : Nat → List Nat → Except DecErr (Xml × List Nat)
  | 0, _ => .error .fail
  | fuel + 1, bs =>
    match bs with
    | 60 :: rest =>
      let nameB := rest.takeWhile isNameByte
      if nameB = [] then .error .fail
      else
        match afterTag (rest.drop nameB.length) with
        | none => .error .fail
        | some (true, r3) => .ok (.el (strOfBytes nameB) [], r3)
        | some (false, r3) =>
          match parseChildrenB fuel r3 with
          | .error e => .error e
          | .ok (cs, r4) =>
            match expectCloseB nameB r4 with
            | some r5 => .ok (.el (strOfBytes nameB) cs, r5)
            | none => .error .fail
    | _ => .error .fail

/-- Parse a run of children up to (but not consuming) a closing tag. -/
def parseChildrenB : Nat → List Nat → Except DecErr (List Xml × List Nat)
  | 0, _ => .error .fail
  | fuel + 1, bs =>
    match bs with
    | [] => .error .fail
    | 60 :: 47 :: rest => .ok ([], 60 :: 47 :: rest)
    | 60 :: rest =>
      match parseElemB fuel (60 :: rest) with
      | .error e => .error e
      | .ok (x, r2) =>
        match parseChildrenB fuel r2 with
        | .error e => .error e
        | .ok (xs, r3) => .ok (x :: xs, r3)
    | _ =>
      let t := bs.takeWhile (fun b => b ≠ 60)
      let r2 := bs.dropWhile (fun b => b ≠ 60)
      match parseChildrenB fuel r2 with
      | .error e => .error e
      | .ok (xs, r3) =>
        if t.all isXmlWs then .ok (xs, r3)
        else .ok (Xml.txt (strOfBytes t) :: xs, r3)
end

/-- Read one XML document (optional declaration, one root element). -/
def xmlOfBytes (bs : List Nat) : Except DecErr Xml :=
  let bs2 := skipDecl (skipWsB bs)
  match parseElemB (2 * bs2.length + 4) bs2 with
  | .ok (x, rest) => if skipWsB rest = [] then .ok x else .error .fail
  | .error e => .error e

/-- `parse::call` applied to a request body's bytes. -/
def parseCallWire (bs : List Nat) : Except DecErr CallValue :=
  (xmlOfBytes bs).bind parseCallX

/-! ## HTTP Request (src/http/request.rs); `Method` lives in the absent
`http/common.rs` and is modelled from the spec's fixed enumerated set. -/

/-- Modelled from the spec: the fixed enumerated HTTP method set. -/
inductive Method where
  | get | head | post | put | delete | connect | options | trace | patch
deriving DecidableEq

/-- Modelled from the spec: `Method::from_str`, exact match against the
fixed enumerated set; anything else fails. -/
def Method.fromBytes (bs : List Nat) : Option Method :=
  if bs = asciiBytes "GET" then some .get
  else if bs = asciiBytes "HEAD" then some .head
  else if bs = asciiBytes "POST" then some .post
  else if bs = asciiBytes "PUT" then some .put
  else if bs = asciiBytes "DELETE" then some .delete
  else if bs = asciiBytes "CONNECT" then some .connect
  else if bs = asciiBytes "OPTIONS" then some .options
  else if bs = asciiBytes "TRACE" then some .trace
  else if bs = asciiBytes "PATCH" then some .patch
  else none

/-- Modelled from the spec: a request header, field/value byte lists
obtained by splitting a header line at its first colon with surrounding
whitespace trimmed; case-insensitive field equivalence. -/
structure RqHeader where
  field : List Nat
  value : List Nat
deriving DecidableEq

/-- ASCII lowercase of a byte. -/
def lowerByte (b : Nat) : Nat := if 65 ≤ b ∧ b ≤ 90 then b + 32 else b

/-- Case-insensitive byte-list comparison (`HeaderField::equiv`). -/
def equivB (a b : List Nat) : Bool := decide (a.map lowerByte = b.map lowerByte)

/-- `Request` from src/http/request.rs (the remote address is omitted:
no claim concerns it).  The body holds the raw bytes of the UTF-8
string Rust stores. -/
structure HttpRequest where
  method : Method
  path : List Nat
  httpVersion : Nat × Nat
  headers : List RqHeader
  bodyLength : Nat
  body : Option (List Nat)
deriving DecidableEq

/-- `Server::handle_outer` (src/server.rs lines 118-134): absent body or
a body failing Call decoding give `empty_400`; otherwise dispatch and
wrap the encoded protocol response in a 200 with `Content-Type:
text/xml`. -/
def Server.handleOuter (s : Server) (r : HttpRequest) : HttpResponse :=
  match r.body with
  | none => HttpResponse.empty400
  | some body =>
    match parseCallWire body with
    | .error _ => HttpResponse.empty400
    | .ok call =>
      HttpResponse.fromData "text/xml" (some (responseToXml (s.handle call)))

/-- C2: dispatching a Call whose name is registered with handler `h`
returns exactly `h p`; an unregistered name goes to the configured
missing-method fallback, whose default is
`Fault(404, "Requested method does not exist")`. -/
theorem claim_C2_dispatch (s : Server) (m : String) (p : List Value) :
    (∀ h, s.handlers m = some h → s.handle ⟨m, p⟩ = h p)
      ∧ (s.handlers m = none → s.handle ⟨m, p⟩ = s.onMissingMethod p)
      ∧ Server.new.onMissingMethod p
          = .error (Fault.new 404 "Requested method does not exist") := by
  refine ⟨fun h hh => ?_, fun hh => ?_, rfl⟩
  · unfold Server.handle
    simp only [hh, Option.getD_some]
  · unfold Server.handle
    simp only [hh, Option.getD_none]

/-- Witness for C2: an `echo` handler is dispatched exactly, and an
unregistered name gets the default 404 fault. -/
theorem claim_C2_dispatch_witness :
    (Server.new.registerValue "echo" (fun ps => .ok ps)).handle
        ⟨"echo", [Value.int 1]⟩ = .ok [Value.int 1]
      ∧ (Server.new.registerValue "echo" (fun ps => .ok ps)).handle
        ⟨"missing", []⟩
          = .error (Fault.new 404 "Requested method does not exist") := by
  constructor
  · exact (claim_C2_dispatch
      (Server.new.registerValue "echo" (fun ps => .ok ps)) "echo"
      [Value.int 1]).1 _ (by rfl)
  · have h := claim_C2_dispatch
      (Server.new.registerValue "echo" (fun ps => .ok ps)) "missing" []
    rw [h.2.1 (by rfl)]
    rfl

theorem empty400_eval :
    HttpResponse.empty400
      = { statusCode := 400, headers := [], data := none, dataLength := 0 } :=
  rfl

theorem fromData_eval (ct : String) (d : Option String) :
    HttpResponse.fromData ct d
      = { statusCode := 200, headers := [⟨"Content-Type", ct⟩], data := d,
          dataLength :=
            match d with
            | some s => s.length
            | none => 0 } := by
  cases d <;> rfl

/-- C3: `handle_outer` yields a bare 400 with no body exactly when the
request body is absent or fails Call decoding; otherwise a 200 carrying
`Content-Type: text/xml` and the XML-encoded dispatched protocol
response as body. -/
theorem claim_C3_handle_outer (s : Server) (r : HttpRequest) :
    (((s.handleOuter r).statusCode = 400 ∧ (s.handleOuter r).data = none)
        ↔ (r.body = none
            ∨ ∃ bs e, r.body = some bs ∧ parseCallWire bs = .error e))
      ∧ (∀ bs call, r.body = some bs → parseCallWire bs = .ok call →
          (s.handleOuter r).statusCode = 200
            ∧ (⟨"Content-Type", "text/xml"⟩ : RHeader) ∈ (s.handleOuter r).headers
            ∧ (s.handleOuter r).data
                = some (responseToXml (s.handle call))) := by
  cases hb : r.body with
  | none =>
    have hout : s.handleOuter r = HttpResponse.empty400 := by
      unfold Server.handleOuter
      rw [hb]
    refine ⟨⟨fun _ => Or.inl rfl, fun _ => ?_⟩, fun bs call hbs => ?_⟩
    · rw [hout, empty400_eval]
      exact ⟨rfl, rfl⟩
    · exact absurd hbs (by simp)
  | some body =>
    cases hp : parseCallWire body with
    | error e =>
      have hout : s.handleOuter r = HttpResponse.empty400 := by
        unfold Server.handleOuter
        rw [hb]
        simp only [hp]
      refine ⟨⟨fun _ => Or.inr ⟨body, e, rfl, hp⟩, fun _ => ?_⟩,
        fun bs call hbs hpc => ?_⟩
      · rw [hout, empty400_eval]
        exact ⟨rfl, rfl⟩
      · have hbb : bs = body := by injection hbs with h1; exact h1.symm
        subst hbb
        rw [hp] at hpc
        exact absurd hpc (by simp)
    | ok call =>
      have hout : s.handleOuter r
          = HttpResponse.fromData "text/xml"
              (some (responseToXml (s.handle call))) := by
        unfold Server.handleOuter
        rw [hb]
        simp only [hp]
      constructor
      · constructor
        · intro hcon
          rw [hout, fromData_eval] at hcon
          exact absurd hcon.1 (by simp)
        · intro hor
          rcases hor with hnone | ⟨bs, e, hbs, hpe⟩
          · exact absurd hnone (by simp)
          · have hbb : bs = body := by injection hbs with h1; exact h1.symm
            subst hbb
            rw [hp] at hpe
            exact absurd hpe (by simp)
      · intro bs call' hbs hpc
        have hbb : bs = body := by injection hbs with h1; exact h1.symm
        subst hbb
        rw [hp] at hpc
        have hcc : call' = call := by injection hpc with h2; exact h2.symm
        subst hcc
        rw [hout, fromData_eval]
        exact ⟨rfl, by simp, rfl⟩

/-- Witness for C3: a body-less request gets the bare 400; a request
carrying a decodable `methodCall` body gets a 200. -/
theorem claim_C3_handle_outer_witness :
    (Server.new.handleOuter
        ⟨.post, asciiBytes "/", (1, 1), [], 0, none⟩).statusCode = 400
      ∧ (Server.new.handleOuter
        ⟨.post, asciiBytes "/", (1, 1), [], 51,
          some (asciiBytes
            "<methodCall><methodName>m</methodName></methodCall>")⟩).statusCode
        = 200 := by
  constructor
  · exact ((claim_C3_handle_outer Server.new _).1.mpr (Or.inl rfl)).1
  · exact ((claim_C3_handle_outer Server.new _).2 _ ⟨"m", []⟩ rfl (by rfl)).1

/-- The four protected header fields of `Response::add_header`. -/
def isProtectedField (f : String) : Bool :=
  equivStr f "Connection" || equivStr f "Trailer"
    || equivStr f "Transfer-Encoding" || equivStr f "Upgrade"

/-- Is the header a `Content-Type` header? -/
def isCTHeader (h : RHeader) : Bool := equivStr h.field "Content-Type"

/-- Is the header a `Content-Length` header? -/
def isCLHeader (h : RHeader) : Bool := equivStr h.field "Content-Length"

/-- Value of the first `Content-Type` header, if any. -/
def firstCTValue (hs : List RHeader) : Option String :=
  (hs.find? isCTHeader).map (fun h => h.value)

/-- The builder invariant `add_header` maintains: no protected field and
no `Content-Length` ever sits in the list, and at most one
`Content-Type` does. -/
def HeadersInv (hs : List RHeader) : Prop :=
  (∀ h ∈ hs, isProtectedField h.field = false
      ∧ equivStr h.field "Content-Length" = false)
    ∧ hs.countP isCTHeader ≤ 1

theorem overwriteFirstCT_fields (hs : List RHeader) (v : String) :
    ∀ h' ∈ overwriteFirstCT hs v, ∃ h ∈ hs, h'.field = h.field := by
  induction hs with
  | nil => simp [overwriteFirstCT]
  | cons q rest ih =>
    intro h' hh
    rw [overwriteFirstCT] at hh
    by_cases hq : equivStr q.field "Content-Type"
    · rw [if_pos hq] at hh
      rcases List.mem_cons.mp hh with rfl | hh
      · exact ⟨q, by simp, rfl⟩
      · exact ⟨h', by simp [hh], rfl⟩
    · rw [if_neg hq] at hh
      rcases List.mem_cons.mp hh with rfl | hh
      · exact ⟨h', by simp, rfl⟩
      · obtain ⟨h, hmem, hf⟩ := ih h' hh
        exact ⟨h, by simp [hmem], hf⟩

theorem overwriteFirstCT_countP (hs : List RHeader) (v : String)
    (p : RHeader → Bool) (hp : ∀ h w, p { h with value := w } = p h) :
    (overwriteFirstCT hs v).countP p = hs.countP p := by
  induction hs with
  | nil => rfl
  | cons q rest ih =>
    rw [overwriteFirstCT]
    by_cases hq : equivStr q.field "Content-Type"
    · rw [if_pos hq, List.countP_cons, List.countP_cons, hp q v]
    · rw [if_neg hq, List.countP_cons, List.countP_cons, ih]

theorem overwriteFirstCT_firstValue (hs : List RHeader) (v : String)
    (hany : hs.any isCTHeader = true) :
    firstCTValue (overwriteFirstCT hs v) = some v := by
  induction hs with
  | nil => simp at hany
  | cons q rest ih =>
    rw [overwriteFirstCT]
    by_cases hq : equivStr q.field "Content-Type"
    · rw [if_pos hq]
      unfold firstCTValue
      rw [List.find?_cons_of_pos _ (by simpa [isCTHeader] using hq)]
      rfl
    · rw [if_neg hq]
      unfold firstCTValue
      rw [List.find?_cons_of_neg _ (by simpa [isCTHeader] using hq)]
      have hrest : rest.any isCTHeader = true := by
        rw [List.any_cons] at hany
        simpa [isCTHeader, hq] using hany
      exact ih hrest

theorem addHeader_protected (r : HttpResponse) (h : RHeader)
    (hp : isProtectedField h.field = true) : r.addHeader h = r := by
  unfold HttpResponse.addHeader
  unfold isProtectedField at hp
  rw [if_pos hp]

theorem addHeader_cl_headers (r : HttpResponse) (h : RHeader)
    (hnp : isProtectedField h.field = false)
    (hcl : equivStr h.field "Content-Length" = true) :
    (r.addHeader h).headers = r.headers := by
  unfold HttpResponse.addHeader
  unfold isProtectedField at hnp
  rw [if_neg (by simp [hnp]), if_pos hcl]
  cases hu : parseUsizeChars h.value.data <;> simp

theorem addHeader_cl_dataLength (r : HttpResponse) (h : RHeader) (n : Nat)
    (hnp : isProtectedField h.field = false)
    (hcl : equivStr h.field "Content-Length" = true)
    (hu : parseUsizeChars h.value.data = some n) :
    (r.addHeader h).dataLength = n := by
  unfold HttpResponse.addHeader
  unfold isProtectedField at hnp
  rw [if_neg (by simp [hnp]), if_pos hcl]
  simp [hu]

theorem addHeader_other (r : HttpResponse) (h : RHeader)
    (hnp : isProtectedField h.field = false)
    (hncl : equivStr h.field "Content-Length" = false)
    (hnct : equivStr h.field "Content-Type" = false) :
    (r.addHeader h).headers = r.headers ++ [h] := by
  unfold HttpResponse.addHeader
  unfold isProtectedField at hnp
  rw [if_neg (by simp [hnp]), if_neg (by simp [hncl]), if_neg (by simp [hnct])]

theorem addHeader_ct (r : HttpResponse) (h : RHeader)
    (hnp : isProtectedField h.field = false)
    (hncl : equivStr h.field "Content-Length" = false)
    (hct : equivStr h.field "Content-Type" = true)
    (hinv : HeadersInv r.headers) :
    (r.addHeader h).headers.countP isCTHeader = 1
      ∧ firstCTValue (r.addHeader h).headers = some h.value := by
  unfold HttpResponse.addHeader
  unfold isProtectedField at hnp
  rw [if_neg (by simp [hnp]), if_neg (by simp [hncl]), if_pos hct]
  by_cases hex : r.headers.any (fun q => equivStr q.field "Content-Type") = true
  · rw [if_pos hex]
    constructor
    · show (overwriteFirstCT r.headers h.value).countP isCTHeader = 1
      rw [overwriteFirstCT_countP r.headers h.value isCTHeader
        (fun q w => rfl)]
      have hle := hinv.2
      have hge : 1 ≤ r.headers.countP isCTHeader := by
        rw [List.any_eq_true] at hex
        obtain ⟨q, hq, hq2⟩ := hex
        calc 1 = [q].countP isCTHeader := by
              simp [List.countP_cons, isCTHeader, hq2]
          _ ≤ r.headers.countP isCTHeader :=
              List.Sublist.countP_le _ ((List.singleton_sublist).mpr hq)
      omega
    · show firstCTValue (overwriteFirstCT r.headers h.value) = some h.value
      refine overwriteFirstCT_firstValue r.headers h.value ?_
      rw [List.any_eq_true] at hex ⊢
      obtain ⟨q, hq, hq2⟩ := hex
      exact ⟨q, hq, by simpa [isCTHeader] using hq2⟩
  · rw [if_neg hex]
    have h0 : r.headers.countP isCTHeader = 0 := by
      rw [List.countP_eq_zero]
      intro q hq
      rw [Bool.not_eq_true] at hex
      rw [List.any_eq_false] at hex
      simpa [isCTHeader] using hex q hq
    constructor
    · show (r.headers ++ [h]).countP isCTHeader = 1
      rw [List.countP_append, h0]
      simp [List.countP_cons, isCTHeader, hct]
    · show firstCTValue (r.headers ++ [h]) = some h.value
      unfold firstCTValue
      have hnone : r.headers.find? isCTHeader = none := by
        rw [List.find?_eq_none]
        intro q hq
        rw [List.countP_eq_zero] at h0
        simp [h0 q hq]
      rw [List.find?_append, hnone]
      simp [List.find?_cons_of_pos, isCTHeader, hct]

theorem addHeader_inv {r : HttpResponse} (hinv : HeadersInv r.headers)
    (h : RHeader) : HeadersInv (r.addHeader h).headers := by
  unfold HttpResponse.addHeader
  by_cases hp : (equivStr h.field "Connection" || equivStr h.field "Trailer"
      || equivStr h.field "Transfer-Encoding"
      || equivStr h.field "Upgrade") = true
  · rw [if_pos hp]
    exact hinv
  · rw [if_neg hp]
    simp only [Bool.or_eq_true, not_or, Bool.not_eq_true] at hp
    by_cases hcl : equivStr h.field "Content-Length" = true
    · rw [if_pos hcl]
      cases hu : parseUsizeChars h.value.data <;> exact hinv
    · rw [if_neg hcl]
      rw [Bool.not_eq_true] at hcl
      by_cases hct : equivStr h.field "Content-Type" = true
      · rw [if_pos hct]
        by_cases hex :
            r.headers.any (fun q => equivStr q.field "Content-Type") = true
        · rw [if_pos hex]
          constructor
          · intro h' hh'
            obtain ⟨h0, hmem, hf⟩ :=
              overwriteFirstCT_fields r.headers h.value h' hh'
            have hh0 := hinv.1 h0 hmem
            rw [show h'.field = h0.field from hf]
            exact hh0
          · show (overwriteFirstCT r.headers h.value).countP isCTHeader ≤ 1
            rw [overwriteFirstCT_countP r.headers h.value isCTHeader
              (fun q w => rfl)]
            exact hinv.2
        · rw [if_neg hex]
          constructor
          · intro h' hh'
            rcases List.mem_append.mp hh' with hh | hh
            · exact hinv.1 h' hh
            · have : h' = h := by simpa using hh
              subst this
              refine ⟨?_, hcl⟩
              unfold isProtectedField
              rw [hp.1.1.1, hp.1.1.2, hp.1.2, hp.2]
              rfl
          · show (r.headers ++ [h]).countP isCTHeader ≤ 1
            rw [List.countP_append]
            have h0 : r.headers.countP isCTHeader = 0 := by
              rw [List.countP_eq_zero]
              intro q hq
              rw [Bool.not_eq_true] at hex
              rw [List.any_eq_false] at hex
              simpa [isCTHeader] using hex q hq
            rw [h0]
            simp [List.countP_cons, isCTHeader, hct]
      · rw [if_neg hct]
        rw [Bool.not_eq_true] at hct
        constructor
        · intro h' hh'
          rcases List.mem_append.mp hh' with hh | hh
          · exact hinv.1 h' hh
          · have : h' = h := by simpa using hh
            subst this
            refine ⟨?_, hcl⟩
            unfold isProtectedField
            rw [hp.1.1.1, hp.1.1.2, hp.1.2, hp.2]
            rfl
        · show (r.headers ++ [h]).countP isCTHeader ≤ 1
          rw [List.countP_append]
          have hl : [h].countP isCTHeader = 0 := by
            simp [List.countP_cons, isCTHeader, hct]
          rw [hl]
          simpa using hinv.2

theorem foldl_addHeader_inv (hs : List RHeader) :
    ∀ r : HttpResponse, HeadersInv r.headers →
      HeadersInv ((hs.foldl HttpResponse.addHeader r).headers) := by
  induction hs with
  | nil => intro r h; exact h
  | cons q rest ih =>
    intro r h
    rw [List.foldl_cons]
    exact ih _ (addHeader_inv h q)

theorem new_inv (code : Nat) (hs : List RHeader) (d : Option String)
    (n : Nat) : HeadersInv (HttpResponse.new code hs d n).headers := by
  unfold HttpResponse.new
  exact foldl_addHeader_inv hs _ ⟨by simp, by simp⟩

theorem reachable_inv {r : HttpResponse} (h : r.Reachable) :
    HeadersInv r.headers := by
  induction h with
  | new code hs d n => exact new_inv code hs d n
  | withHeader hh _ ih => exact addHeader_inv ih hh
  | withStatusCode code _ ih => exact ih
  | withData d n _ ih => exact ih

theorem finalize_headers_shape (r : HttpResponse) (now : String)
    (dnsb : Bool) :
    ∃ front, (r.finalize now dnsb).headers
        = front ++ [⟨"Content-Length", natReprStr r.dataLength⟩]
      ∧ (∀ h ∈ front, h ∈ r.headers ∨ h = ⟨"Date", now⟩
          ∨ h = ⟨"Server", serverDefaultName⟩) := by
  unfold HttpResponse.finalize
  refine ⟨_, rfl, ?_⟩
  intro h hh
  by_cases hd : r.headers.any (fun q => equivStr q.field "Date") = true
  · rw [if_pos hd] at hh
    by_cases hsv : r.headers.any (fun q => equivStr q.field "Server") = true
    · rw [if_pos hsv] at hh
      exact Or.inl hh
    · rw [if_neg hsv] at hh
      rcases List.mem_cons.mp hh with rfl | hh
      · exact Or.inr (Or.inr rfl)
      · exact Or.inl hh
  · rw [if_neg hd] at hh
    by_cases hsv : ((⟨"Date", now⟩ : RHeader) :: r.headers).any
        (fun q => equivStr q.field "Server") = true
    · rw [if_pos hsv] at hh
      rcases List.mem_cons.mp hh with rfl | hh
      · exact Or.inr (Or.inl rfl)
      · exact Or.inl hh
    · rw [if_neg hsv] at hh
      rcases List.mem_cons.mp hh with rfl | hh
      · exact Or.inr (Or.inr rfl)
      · rcases List.mem_cons.mp hh with rfl | hh
        · exact Or.inr (Or.inl rfl)
        · exact Or.inl hh

/-- C4 (amended): finalizing always writes status version HTTP/1.0,
synthesizes `Date` and `Server` when absent, and emits exactly one
`Content-Length` header — whose value is the response's recorded
`data_length`. -/
theorem claim_C4_raw_print (r : HttpResponse) (now : String) (dnsb : Bool)
    (hr : r.Reachable) :
    (r.finalize now dnsb).version = (1, 0)
      ∧ (r.headers.any (fun h => equivStr h.field "Date") = false →
          (⟨"Date", now⟩ : RHeader) ∈ (r.finalize now dnsb).headers)
      ∧ (r.headers.any (fun h => equivStr h.field "Server") = false →
          (⟨"Server", serverDefaultName⟩ : RHeader)
            ∈ (r.finalize now dnsb).headers)
      ∧ (r.finalize now dnsb).headers.countP isCLHeader = 1
      ∧ (∀ h ∈ (r.finalize now dnsb).headers, isCLHeader h = true →
          h.value = natReprStr r.dataLength) := by
  have hinv := reachable_inv hr
  obtain ⟨front, hshape, hfront⟩ := finalize_headers_shape r now dnsb
  have hfrontCL : ∀ h ∈ front, isCLHeader h = false := by
    intro h hh
    rcases hfront h hh with hmem | rfl | rfl
    · exact (hinv.1 h hmem).2
    · exact (show equivStr "Date" "Content-Length" = false by decide)
    · exact (show equivStr "Server" "Content-Length" = false by decide)
  refine ⟨rfl, ?_, ?_, ?_, ?_⟩
  · intro hd
    unfold HttpResponse.finalize
    simp only [hd, Bool.false_eq_true, if_false]
    refine List.mem_append_left _ ?_
    by_cases hsv : ((⟨"Date", now⟩ : RHeader) :: r.headers).any
        (fun q => equivStr q.field "Server") = true
    · rw [if_pos hsv]
      exact List.mem_cons_self _ _
    · rw [if_neg hsv]
      exact List.mem_cons_of_mem _ (List.mem_cons_self _ _)
  · intro hs0
    unfold HttpResponse.finalize
    refine List.mem_append_left _ ?_
    by_cases hd : r.headers.any (fun q => equivStr q.field "Date") = true
    · rw [if_pos hd, if_neg (by rw [hs0]; exact Bool.false_ne_true)]
      exact List.mem_cons_self _ _
    · rw [if_neg hd]
      have hany : ((⟨"Date", now⟩ : RHeader) :: r.headers).any
          (fun q => equivStr q.field "Server") = false := by
        rw [List.any_cons, hs0]
        simp [show equivStr "Date" "Server" = false by decide]
      rw [if_neg (by rw [hany]; exact Bool.false_ne_true)]
      exact List.mem_cons_self _ _
  · rw [hshape, List.countP_append, List.countP_eq_zero.mpr
      (fun a ha => by rw [hfrontCL a ha]; exact Bool.false_ne_true)]
    simp [List.countP_cons, isCLHeader,
      show equivStr "Content-Length" "Content-Length" = true by decide]
  · intro h hh hcl
    rw [hshape] at hh
    rcases List.mem_append.mp hh with hh | hh
    · rw [hfrontCL h hh] at hcl
      exact absurd hcl (by simp)
    · have : h = ⟨"Content-Length", natReprStr r.dataLength⟩ := by
        simpa using hh
      rw [this]

/-- Witness for C4 at a concrete reachable response. -/
theorem claim_C4_raw_print_witness :
    ((HttpResponse.new 200 [] (some "hello") 5).finalize "D" false).version
        = (1, 0)
      ∧ ((HttpResponse.new 200 [] (some "hello") 5).finalize
          "D" false).headers.countP isCLHeader = 1 := by
  have h := claim_C4_raw_print (HttpResponse.new 200 [] (some "hello") 5)
    "D" false (HttpResponse.Reachable.new 200 [] (some "hello") 5)
  exact ⟨h.1, h.2.2.2.1⟩

/-- Counterexample for C4 as stated: a reachable response with recorded
`data_length` 5 but no data writes an empty body, yet its single
`Content-Length` header says `5`, not the `0` bytes actually written. -/
theorem claim_C4_content_length_cex :
    ¬ (∀ h ∈ ((HttpResponse.new 200 [] none 5).finalize "D" false).headers,
        isCLHeader h = true →
          h.value = natReprStr
            ((HttpResponse.new 200 [] none 5).finalize "D" false).body.length) := by
  intro hall
  have h5 := hall ⟨"Content-Length", "5"⟩ (by decide) (by decide)
  exact absurd h5 (by decide)

/-- C9 (amended): the body is suppressed for an explicit caller request,
status 1xx, 204 or 304; otherwise the data is written whenever it is
present and the recorded `data_length` is at least 1. -/
theorem claim_C9_body_suppression (r : HttpResponse) (now : String)
    (dnsb : Bool) :
    ((dnsb = true ∨ (100 ≤ r.statusCode ∧ r.statusCode ≤ 199)
        ∨ r.statusCode = 204 ∨ r.statusCode = 304) →
      (r.finalize now dnsb).body = "")
      ∧ (dnsb = false → ¬(100 ≤ r.statusCode ∧ r.statusCode ≤ 199) →
          r.statusCode ≠ 204 → r.statusCode ≠ 304 →
          ∀ d, r.data = some d → 1 ≤ r.dataLength →
            (r.finalize now dnsb).body = d) := by
  constructor
  · intro hcond
    have hb : (dnsb || decide (100 ≤ r.statusCode ∧ r.statusCode ≤ 199)
        || decide (r.statusCode = 204)
        || decide (r.statusCode = 304)) = true := by
      rcases hcond with h | h | h | h <;> simp [h]
    unfold HttpResponse.finalize
    simp only [hb, if_true]
  · intro h1 h2 h3 h4 d hd hlen
    have hb : (dnsb || decide (100 ≤ r.statusCode ∧ r.statusCode ≤ 199)
        || decide (r.statusCode = 204)
        || decide (r.statusCode = 304)) = false := by
      simp [h1, h2, h3, h4]
    unfold HttpResponse.finalize
    simp only [hb, Bool.false_eq_true, if_false, hd, hlen, if_pos]

/-- Counterexample for C9 as stated: a 200 response with data present
but recorded `data_length` 0 writes no body. -/
theorem claim_C9_body_cex :
    (HttpResponse.new 200 [] (some "hi") 0).data = some "hi"
      ∧ (HttpResponse.new 200 [] (some "hi") 0).statusCode = 200
      ∧ ((HttpResponse.new 200 [] (some "hi") 0).finalize "D" false).body
          = "" :=
  ⟨rfl, rfl, rfl⟩

/-- Witness for C9: a 204 with data writes nothing; a plain 200 with
data and a positive recorded length writes the data. -/
theorem claim_C9_body_suppression_witness :
    ((HttpResponse.new 204 [] (some "hello") 5).finalize "D" false).body = ""
      ∧ ((HttpResponse.new 200 [] (some "ok") 2).finalize "D" false).body
          = "ok" := by
  constructor
  · exact (claim_C9_body_suppression (HttpResponse.new 204 [] (some "hello") 5)
      "D" false).1 (Or.inr (Or.inr (Or.inl rfl)))
  · exact (claim_C9_body_suppression (HttpResponse.new 200 [] (some "ok") 2)
      "D" false).2 rfl (by decide) (by decide) (by decide) "ok" rfl
      (by decide)

/-- C8: over any sequence of `add_header` calls from an invariant state,
the header list never holds a protected field or `Content-Length` and at
most one `Content-Type`; a protected set is dropped whole; setting
`Content-Length` never adds a header and overwrites `data_length` when
its value parses; setting `Content-Type` leaves exactly one
`Content-Type` holding the value just set; any other name is appended
(and may repeat); the final framed output holds exactly one
`Content-Length` header. -/
theorem claim_C8_add_header (r : HttpResponse) (hs : List RHeader)
    (now : String) (dnsb : Bool) (hinv : HeadersInv r.headers) :
    HeadersInv ((hs.foldl HttpResponse.addHeader r).headers)
      ∧ (∀ h : RHeader, isProtectedField h.field = true → r.addHeader h = r)
      ∧ (∀ h : RHeader, isProtectedField h.field = false →
          equivStr h.field "Content-Length" = true →
          (r.addHeader h).headers = r.headers
            ∧ ∀ n, parseUsizeChars h.value.data = some n →
                (r.addHeader h).dataLength = n)
      ∧ (∀ h : RHeader, isProtectedField h.field = false →
          equivStr h.field "Content-Length" = false →
          equivStr h.field "Content-Type" = true →
          (r.addHeader h).headers.countP isCTHeader = 1
            ∧ firstCTValue (r.addHeader h).headers = some h.value)
      ∧ (∀ h : RHeader, isProtectedField h.field = false →
          equivStr h.field "Content-Length" = false →
          equivStr h.field "Content-Type" = false →
          (r.addHeader h).headers = r.headers ++ [h])
      ∧ ((hs.foldl HttpResponse.addHeader r).finalize now dnsb).headers.countP
          isCLHeader = 1 := by
  refine ⟨foldl_addHeader_inv hs r hinv, addHeader_protected r,
    fun h hnp hcl => ⟨addHeader_cl_headers r h hnp hcl,
      fun n hu => addHeader_cl_dataLength r h n hnp hcl hu⟩,
    fun h hnp hncl hct => addHeader_ct r h hnp hncl hct hinv,
    addHeader_other r, ?_⟩
  have hinv2 := foldl_addHeader_inv hs r hinv
  obtain ⟨front, hshape, hfront⟩ :=
    finalize_headers_shape (hs.foldl HttpResponse.addHeader r) now dnsb
  have hfrontCL : ∀ h ∈ front, isCLHeader h = false := by
    intro h hh
    rcases hfront h hh with hmem | rfl | rfl
    · exact (hinv2.1 h hmem).2
    · exact (show equivStr "Date" "Content-Length" = false by decide)
    · exact (show equivStr "Server" "Content-Length" = false by decide)
  rw [hshape, List.countP_append, List.countP_eq_zero.mpr
    (fun a ha => by rw [hfrontCL a ha]; exact Bool.false_ne_true)]
  simp [List.countP_cons, isCLHeader,
    show equivStr "Content-Length" "Content-Length" = true by decide]

/-- Witness for C8: double `Content-Type` set keeps one header with the
second value; `Connection` is dropped; `Content-Length` lands in
`data_length`. -/
theorem claim_C8_add_header_witness :
    (((HttpResponse.new 200 [] none 0).addHeader
        ⟨"Content-Type", "a"⟩).addHeader
          ⟨"Content-Type", "b"⟩).headers.countP isCTHeader = 1
      ∧ firstCTValue (((HttpResponse.new 200 [] none 0).addHeader
          ⟨"Content-Type", "a"⟩).addHeader ⟨"Content-Type", "b"⟩).headers
          = some "b"
      ∧ (HttpResponse.new 200 [] none 0).addHeader ⟨"Connection", "close"⟩
          = HttpResponse.new 200 [] none 0
      ∧ ((HttpResponse.new 200 [] none 0).addHeader
          ⟨"Content-Length", "7"⟩).dataLength = 7 := by
  have h0 : HeadersInv (HttpResponse.new 200 [] none 0).headers :=
    new_inv 200 [] none 0
  have h1 : HeadersInv ((HttpResponse.new 200 [] none 0).addHeader
      ⟨"Content-Type", "a"⟩).headers :=
    (claim_C8_add_header (HttpResponse.new 200 [] none 0)
      [⟨"Content-Type", "a"⟩] "D" false h0).1
  have hct := (claim_C8_add_header
    ((HttpResponse.new 200 [] none 0).addHeader ⟨"Content-Type", "a"⟩)
      [] "D" false h1).2.2.2.1 ⟨"Content-Type", "b"⟩
      (by decide) (by decide) (by decide)
  refine ⟨hct.1, hct.2, ?_, ?_⟩
  · exact (claim_C8_add_header (HttpResponse.new 200 [] none 0) [] "D" false
      h0).2.1 ⟨"Connection", "close"⟩ (by decide)
  · exact ((claim_C8_add_header (HttpResponse.new 200 [] none 0) [] "D" false
      h0).2.2.1 ⟨"Content-Length", "7"⟩ (by decide) (by decide)).2 7 (by rfl)

/-! ## HTTP Request reading (src/http/request.rs)

The byte stream is the list of bytes the socket delivers.  Errors carry
the `ErrorKind` classes the source attaches to them. -/

/-- The errors `create_request` and its helpers produce. -/
inductive HErr where
  | unexpectedEofLine
  | headerNotAscii
  | invalidMethod
  | invalidHeader
  | invalidVersion
  | bodyEof
  | bodyNotUtf8
deriving DecidableEq

/-- The `std::io::ErrorKind` classes used by src/http/request.rs. -/
inductive ErrClass where
  | connAborted
  | invalidInput
  | invalidData
  | unexpectedEof
deriving DecidableEq

/-- Which `ErrorKind` each error is raised with: end-of-stream mid-line
is `ConnectionAborted` ("Unexpected EOF"), a header line that is not
UTF-8 is `InvalidInput` ("Header is not in ASCII"), the request-line and
header-shape failures are `InvalidData`, a short body read is
`UnexpectedEof`. -/
def HErr.classOf : HErr → ErrClass
  | .unexpectedEofLine => .connAborted
  | .headerNotAscii => .invalidInput
  | .invalidMethod => .invalidData
  | .invalidHeader => .invalidData
  | .invalidVersion => .invalidData
  | .bodyEof => .unexpectedEof
  | .bodyNotUtf8 => .invalidData

/-- Is the byte a UTF-8 continuation byte? -/
def isCont (b : Nat) : Bool := 128 ≤ b && b ≤ 191

/-- Exact UTF-8 validity of a byte sequence (what `String::from_utf8`
checks). -/
def validUtf8 : List Nat → Bool
  | [] => true
  | b :: rest =>
    if b ≤ 127 then validUtf8 rest
    else if 194 ≤ b && b ≤ 223 then
      match rest with
      | c1 :: r => isCont c1 && validUtf8 r
      | [] => false
    else if b = 224 then
      match rest with
      | c1 :: c2 :: r => (160 ≤ c1 && c1 ≤ 191) && isCont c2 && validUtf8 r
      | _ => false
    else if 225 ≤ b && b ≤ 236 then
      match rest with
      | c1 :: c2 :: r => isCont c1 && isCont c2 && validUtf8 r
      | _ => false
    else if b = 237 then
      match rest with
      | c1 :: c2 :: r => (128 ≤ c1 && c1 ≤ 159) && isCont c2 && validUtf8 r
      | _ => false
    else if 238 ≤ b && b ≤ 239 then
      match rest with
      | c1 :: c2 :: r => isCont c1 && isCont c2 && validUtf8 r
      | _ => false
    else if b = 240 then
      match rest with
      | c1 :: c2 :: c3 :: r =>
        (144 ≤ c1 && c1 ≤ 191) && isCont c2 && isCont c3 && validUtf8 r
      | _ => false
    else if 241 ≤ b && b ≤ 243 then
      match rest with
      | c1 :: c2 :: c3 :: r =>
        isCont c1 && isCont c2 && isCont c3 && validUtf8 r
      | _ => false
    else if b = 244 then
      match rest with
      | c1 :: c2 :: c3 :: r =>
        (128 ≤ c1 && c1 ≤ 143) && isCont c2 && isCont c3 && validUtf8 r
      | _ => false
    else false

/-- `read_next_line` (src/http/request.rs lines 178-207): consume bytes
until a CRLF, tracking whether the previous byte was CR; end-of-stream
first is the `ConnectionAborted` error; then the collected line (the
trailing CR removed) must be valid UTF-8, else the `InvalidInput`
error.  Returns the line bytes and the rest of the stream. -/
def readNextLineAux : List Nat → Bool → List Nat →
    Except HErr (List Nat × List Nat)
  | [], _, _ => .error .unexpectedEofLine
  | b :: rest, prevCr, acc =>
    if b = 10 ∧ prevCr = true then
      if validUtf8 acc.dropLast then .ok (acc.dropLast, rest)
      else .error .headerNotAscii
    else readNextLineAux rest (decide (b = 13)) (acc ++ [b])

/-- One line read from the start of the stream. -/
def readNextLine (s : List Nat) : Except HErr (List Nat × List Nat) :=
  readNextLineAux s false []

/-- The whitespace bytes `char::is_whitespace` accepts in ASCII. -/
def isWsByte (b : Nat) : Bool :=
  b = 32 || b = 9 || b = 10 || b = 11 || b = 12 || b = 13

/-- `str::split_whitespace` on bytes: maximal non-whitespace runs. -/
def splitWsAux : List Nat → List Nat → List (List Nat)
  | [], acc => if acc = [] then [] else [acc.reverse]
  | b :: rest, acc =>
    if isWsByte b then
      if acc = [] then splitWsAux rest []
      else acc.reverse :: splitWsAux rest []
    else splitWsAux rest (b :: acc)

/-- Whitespace-splitting of a line. -/
def splitWs (l : List Nat) : List (List Nat) := splitWsAux l []

/-- `parse_http_version` (src/http/request.rs lines 210-226): the fixed
version set, else the `Invalid HTTP version` error. -/
def parseHttpVersion (bs : List Nat) : Except HErr (Nat × Nat) :=
  if bs = asciiBytes "HTTP/0.9" then .ok (0, 9)
  else if bs = asciiBytes "HTTP/1.0" then .ok (1, 0)
  else if bs = asciiBytes "HTTP/1.1" then .ok (1, 1)
  else if bs = asciiBytes "HTTP/2.0" then .ok (2, 0)
  else if bs = asciiBytes "HTTP/3.0" then .ok (3, 0)
  else .error .invalidVersion

/-- The request-line token handling of `create_request` (src/http/request.rs
lines 234-250): first token must be a method ("Invalid Header" when the
line has no tokens, "Invalid Method" when unrecognized), second is the
path (taken verbatim), third is the version ("Invalid Http version" when
missing); tokens beyond the third are never read. -/
def parseReqLineToks : List (List Nat) →
    Except HErr (Method × List Nat × (Nat × Nat))
  | [] => .error .invalidHeader
  | mtok :: rest =>
    match Method.fromBytes mtok with
    | none => .error .invalidMethod
    | some m =>
      match rest with
      | [] => .error .invalidVersion
      | ptok :: rest2 =>
        match rest2 with
        | [] => .error .invalidVersion
        | vtok :: _ => (parseHttpVersion vtok).map (fun v => (m, ptok, v))

/-- Parse a request line. -/
def parseReqLine (line : List Nat) :
    Except HErr (Method × List Nat × (Nat × Nat)) :=
  parseReqLineToks (splitWs line)

/-- Leading and trailing whitespace removed. -/
def trimBytes (bs : List Nat) : List Nat :=
  ((bs.dropWhile isWsByte).reverse.dropWhile isWsByte).reverse

/-- Split a header line at its first colon (byte 58). -/
def splitColonAux : List Nat → List Nat → Option (List Nat × List Nat)
  | [], _ => none
  | b :: rest, acc =>
    if b = 58 then some (acc.reverse, rest) else splitColonAux rest (b :: acc)

/-- Modelled from the spec: `Header::from_str`, splitting at the first
colon into field and value with surrounding whitespace trimmed; no colon
is a failure. -/
def headerFromLine (line : List Nat) : Option RqHeader :=
  (splitColonAux line []).map (fun p => ⟨trimBytes p.1, trimBytes p.2⟩)

/-- Error-propagating sequencing for the framing pipeline. -/
def ebind {α β : Type} (x : Except HErr α) (g : α → Except HErr β) :
    Except HErr β :=
  match x with
  | .error e => .error e
  | .ok a => g a

/-- The outcome of `create_request`: a request plus unconsumed stream,
an `io::Error`, or a Rust panic. -/
inductive RResult where
  | ok (req : HttpRequest) (rest : List Nat)
  | err (e : HErr)
  | crash
deriving DecidableEq

/-- Lift an erroring computation into the `create_request` outcome. -/
def rlift {α : Type} (x : Except HErr α) (g : α → RResult) : RResult :=
  match x with
  | .error e => .err e
  | .ok a => g a

/-- The header loop of `create_request` (src/http/request.rs lines
252-261), fuel-structural: read lines until an empty one, each parsed as
a header ("Invalid Header" on failure). -/
def readHeaderLoopAux : Nat → List Nat →
    Except HErr (List RqHeader × List Nat)
  | 0, _ => .error .unexpectedEofLine
  | fuel + 1, s =>
    ebind (readNextLine s) (fun p =>
      if p.1 = [] then .ok ([], p.2)
      else
        (headerFromLine p.1).elim (.error .invalidHeader) (fun hd =>
          ebind (readHeaderLoopAux fuel p.2)
            (fun q => .ok (hd :: q.1, q.2))))

/-- The header loop with sufficient fuel (a successful line read always
consumes at least one byte). -/
def readHeaderLoop (s : List Nat) : Except HErr (List RqHeader × List Nat) :=
  readHeaderLoopAux (s.length + 1) s

/-- Request line and header block of `create_request`. -/
def readReqHead (s : List Nat) :
    Except HErr ((Method × List Nat × (Nat × Nat)) × List RqHeader × List Nat) :=
  ebind (readNextLine s) (fun p =>
    ebind (parseReqLine p.1) (fun rl =>
      ebind (readHeaderLoop p.2) (fun hs => .ok (rl, hs.1, hs.2))))

/-- `create_request` (src/http/request.rs lines 228-289): request line,
header block, then the body: the first `Content-Length` header (field
match case-insensitive) has its value parsed by `usize::from_str` whose
failure is an `unwrap` panic; a positive length reads exactly that many
bytes (`read_exact`, `UnexpectedEof` when the stream is short) which
must be UTF-8. -/
def create_request (s : List Nat) : RResult :=
  rlift (readReqHead s) (fun t =>
    (t.2.1.find? (fun h => equivB h.field (asciiBytes "Content-Length"))).elim
      (RResult.ok ⟨t.1.1, t.1.2.1, t.1.2.2, t.2.1, 0, none⟩ t.2.2)
      (fun h =>
        (parseUsizeBytes h.value).elim RResult.crash (fun n =>
          if n = 0 then
            RResult.ok ⟨t.1.1, t.1.2.1, t.1.2.2, t.2.1, 0, none⟩ t.2.2
          else if t.2.2.length < n then RResult.err .bodyEof
          else if validUtf8 (t.2.2.take n) then
            RResult.ok ⟨t.1.1, t.1.2.1, t.1.2.2, t.2.1, n,
              some (t.2.2.take n)⟩ (t.2.2.drop n)
          else RResult.err .bodyNotUtf8)))

/-- No CRLF occurs in the bytes, given whether the previous byte was CR:
scanning them can never terminate a line. -/
def noCrlfFrom : Bool → List Nat → Bool
  | _, [] => true
  | prev, b :: rest =>
    !(decide (b = 10) && prev) && noCrlfFrom (decide (b = 13)) rest

/-- Join lines with CRLF terminators. -/
def joinCRLF : List (List Nat) → List Nat
  | [] => []
  | l :: ls => l ++ 13 :: 10 :: joinCRLF ls

/-- Pure CRLF line splitting (no validation), for describing stream
structure. -/
def crlfSplitAux : List Nat → Bool → List Nat → Option (List Nat × List Nat)
  | [], _, _ => none
  | b :: rest, prev, acc =>
    if b = 10 ∧ prev = true then some (acc.dropLast, rest)
    else crlfSplitAux rest (decide (b = 13)) (acc ++ [b])

/-- Split one CRLF-terminated line off the stream, if any. -/
def crlfSplitOne (s : List Nat) : Option (List Nat × List Nat) :=
  crlfSplitAux s false []

/-- Does the CRLF line structure reach an empty line (the header-block
terminator)? -/
def headerBlockEnds : Nat → List Nat → Bool
  | 0, _ => false
  | fuel + 1, s =>
    match crlfSplitOne s with
    | none => false
    | some (line, rest) =>
      if line = [] then true else headerBlockEnds fuel rest

/-- Does the stream's header block (after the request line) terminate? -/
def streamHeadersEnd (s : List Nat) : Bool :=
  match crlfSplitOne s with
  | none => false
  | some (_, rest) => headerBlockEnds (rest.length + 1) rest

theorem ebind_ok {α β : Type} (a : α) (g : α → Except HErr β) :
    ebind (.ok a) g = g a := rfl

theorem ebind_error {α β : Type} (e : HErr) (g : α → Except HErr β) :
    ebind (.error e) g = .error e := rfl

theorem rlift_ok {α : Type} (a : α) (g : α → RResult) :
    rlift (.ok a) g = g a := rfl

theorem rlift_error {α : Type} (e : HErr) (g : α → RResult) :
    rlift (.error e) g = .err e := rfl

theorem readNextLineAux_consumes (t : List Nat) :
    ∀ (prev : Bool) (acc line rest : List Nat),
      readNextLineAux t prev acc = .ok (line, rest) → rest.length < t.length := by
  induction t with
  | nil =>
    intro prev acc line rest h
    exact absurd h (by simp [readNextLineAux])
  | cons b t' ih =>
    intro prev acc line rest h
    rw [readNextLineAux] at h
    by_cases hc : b = 10 ∧ prev = true
    · rw [if_pos hc] at h
      by_cases hv : validUtf8 acc.dropLast = true
      · rw [if_pos hv] at h
        injection h with h1
        injection h1 with h2 h3
        rw [← h3]
        simp
      · rw [if_neg hv] at h
        exact absurd h (by simp)
    · rw [if_neg hc] at h
      have := ih _ _ _ _ h
      simp only [List.length_cons]
      omega

theorem readHeaderLoopAux_irrel (n : Nat) :
    ∀ (fuel fuel' : Nat) (s : List Nat), s.length ≤ n →
      s.length < fuel → s.length < fuel' →
      readHeaderLoopAux fuel s = readHeaderLoopAux fuel' s := by
  induction n with
  | zero =>
    intro fuel fuel' s hn hf hf'
    obtain ⟨f, rfl⟩ : ∃ f, fuel = f + 1 := ⟨fuel - 1, by omega⟩
    obtain ⟨f', rfl⟩ : ∃ f', fuel' = f' + 1 := ⟨fuel' - 1, by omega⟩
    have hs : s = [] := List.length_eq_zero.mp (by omega)
    subst hs
    rfl
  | succ n ih =>
    intro fuel fuel' s hn hf hf'
    obtain ⟨f, rfl⟩ : ∃ f, fuel = f + 1 := ⟨fuel - 1, by omega⟩
    obtain ⟨f', rfl⟩ : ∃ f', fuel' = f' + 1 := ⟨fuel' - 1, by omega⟩
    rw [readHeaderLoopAux, readHeaderLoopAux]
    cases hline : readNextLine s with
    | error e => rw [ebind_error, ebind_error]
    | ok p =>
      obtain ⟨line, rest⟩ := p
      have hlt : rest.length < s.length :=
        readNextLineAux_consumes s false [] line rest hline
      rw [ebind_ok, ebind_ok]
      by_cases hl : line = []
      · simp only [hl, if_pos]
      · simp only [if_neg hl]
        cases headerFromLine line with
        | none => simp only [Option.elim_none]
        | some hd =>
          simp only [Option.elim_some]
          rw [ih f f' rest (by omega) (by omega) (by omega)]

theorem readHeaderLoop_eq (s : List Nat) :
    readHeaderLoop s
      = ebind (readNextLine s) (fun p =>
          if p.1 = [] then .ok ([], p.2)
          else
            (headerFromLine p.1).elim (.error .invalidHeader) (fun hd =>
              ebind (readHeaderLoop p.2)
                (fun q => .ok (hd :: q.1, q.2)))) := by
  show readHeaderLoopAux (s.length + 1) s = _
  rw [readHeaderLoopAux]
  cases hline : readNextLine s with
  | error e => rw [ebind_error, ebind_error]
  | ok p =>
    obtain ⟨line, rest⟩ := p
    have hlt : rest.length < s.length :=
      readNextLineAux_consumes s false [] line rest hline
    rw [ebind_ok, ebind_ok]
    by_cases hl : line = []
    · simp only [hl, if_pos]
    · simp only [if_neg hl]
      cases headerFromLine line with
      | none => simp only [Option.elim_none]
      | some hd =>
        simp only [Option.elim_some]
        rw [readHeaderLoopAux_irrel s.length s.length (rest.length + 1) rest
          (by omega) (by omega) (by omega)]
        rfl

theorem readNextLineAux_eof (t : List Nat) :
    ∀ (prev : Bool) (acc : List Nat), noCrlfFrom prev t = true →
      readNextLineAux t prev acc = .error .unexpectedEofLine := by
  induction t with
  | nil => intro prev acc _; rfl
  | cons b t' ih =>
    intro prev acc h
    rw [noCrlfFrom, Bool.and_eq_true] at h
    obtain ⟨h1, h2⟩ := h
    rw [readNextLineAux, if_neg, ih _ _ h2]
    intro hc
    rw [Bool.not_eq_true', Bool.and_eq_false_iff] at h1
    rcases h1 with h1 | h1
    · rw [decide_eq_false_iff_not] at h1
      exact h1 hc.1
    · rw [h1] at hc
      exact absurd hc.2 (by simp)

theorem readNextLineAux_line (L : List Nat) :
    ∀ (prev : Bool) (acc rest : List Nat), noCrlfFrom prev L = true →
      readNextLineAux (L ++ 13 :: 10 :: rest) prev acc
        = if validUtf8 (acc ++ L) then .ok (acc ++ L, rest)
          else .error .headerNotAscii := by
  induction L with
  | nil =>
    intro prev acc rest _
    rw [List.nil_append, readNextLineAux, if_neg (by simp), readNextLineAux,
      if_pos ⟨rfl, by simp⟩, List.dropLast_concat]
    simp
  | cons b L' ih =>
    intro prev acc rest h
    rw [noCrlfFrom, Bool.and_eq_true] at h
    obtain ⟨h1, h2⟩ := h
    have hnc : ¬(b = 10 ∧ prev = true) := by
      intro hc
      rw [Bool.not_eq_true', Bool.and_eq_false_iff] at h1
      rcases h1 with h1 | h1
      · rw [decide_eq_false_iff_not] at h1
        exact h1 hc.1
      · rw [h1] at hc
        exact absurd hc.2 (by simp)
    rw [List.cons_append, readNextLineAux, if_neg hnc,
      ih (decide (b = 13)) (acc ++ [b]) rest h2]
    have : acc ++ [b] ++ L' = acc ++ b :: L' := by simp
    rw [this]

theorem readNextLine_eof (s : List Nat) (h : noCrlfFrom false s = true) :
    readNextLine s = .error .unexpectedEofLine :=
  readNextLineAux_eof s false [] h

theorem readNextLine_line (L rest : List Nat) (hnc : noCrlfFrom false L = true)
    (hv : validUtf8 L = true) :
    readNextLine (L ++ 13 :: 10 :: rest) = .ok (L, rest) := by
  unfold readNextLine
  rw [readNextLineAux_line L false [] rest hnc]
  simp [hv]

theorem readHeaderLoop_trunc (hdrlines : List (List Nat)) :
    ∀ tail : List Nat,
      (∀ l ∈ hdrlines, l ≠ [] ∧ noCrlfFrom false l = true
        ∧ validUtf8 l = true ∧ (headerFromLine l).isSome = true) →
      noCrlfFrom false tail = true →
      readHeaderLoop (joinCRLF hdrlines ++ tail)
        = .error .unexpectedEofLine := by
  induction hdrlines with
  | nil =>
    intro tail _ htail
    rw [joinCRLF, List.nil_append, readHeaderLoop_eq,
      readNextLine_eof tail htail, ebind_error]
  | cons l ls ih =>
    intro tail hall htail
    obtain ⟨hne, hncrlf, hutf, hsome⟩ := hall l (by simp)
    rw [joinCRLF, readHeaderLoop_eq]
    have hshape : (l ++ 13 :: 10 :: joinCRLF ls) ++ tail
        = l ++ 13 :: 10 :: (joinCRLF ls ++ tail) := by simp
    rw [hshape, readNextLine_line l (joinCRLF ls ++ tail) hncrlf hutf]
    simp only [ebind_ok]
    rw [if_neg (by simpa using hne)]
    obtain ⟨hd, hhd⟩ := Option.isSome_iff_exists.mp hsome
    have hfl : headerFromLine (l, joinCRLF ls ++ tail).1 = some hd := hhd
    rw [hfl]
    simp only [Option.elim_some]
    rw [ih tail (fun x hx => hall x (by simp [hx])) htail, ebind_error]

/-- C5 (amended): the request line is split on whitespace; an
unrecognized first token fails with the invalid-method error; a version
token outside the fixed set fails with the invalid-version error; any
path token is accepted without validation; fewer than three tokens are
rejected — but tokens beyond the third are ignored, not rejected.  A
request-line failure becomes the result of `create_request`. -/
theorem claim_C5_request_line (line : List Nat) (s : List Nat) :
    (∀ mtok rest, splitWs line = mtok :: rest →
        Method.fromBytes mtok = none →
        parseReqLine line = .error .invalidMethod)
      ∧ (∀ mtok ptok vtok rest m,
          splitWs line = mtok :: ptok :: vtok :: rest →
          Method.fromBytes mtok = some m →
          parseHttpVersion vtok = .error .invalidVersion →
          parseReqLine line = .error .invalidVersion)
      ∧ ((splitWs line).length < 3 → ∃ e, parseReqLine line = .error e)
      ∧ (∀ mtok ptok vtok rest m v,
          splitWs line = mtok :: ptok :: vtok :: rest →
          Method.fromBytes mtok = some m →
          parseHttpVersion vtok = .ok v →
          parseReqLine line = .ok (m, ptok, v))
      ∧ (∀ line1 s1 e, readNextLine s = .ok (line1, s1) →
          parseReqLine line1 = .error e →
          create_request s = .err e) := by
  refine ⟨?_, ?_, ?_, ?_, ?_⟩
  · intro mtok rest hsp hm
    unfold parseReqLine
    rw [hsp, parseReqLineToks, hm]
  · intro mtok ptok vtok rest m hsp hm hv
    unfold parseReqLine
    rw [hsp, parseReqLineToks, hm]
    show (parseHttpVersion vtok).map _ = _
    rw [hv]
    rfl
  · intro hlen
    cases hsp : splitWs line with
    | nil => exact ⟨.invalidHeader, by unfold parseReqLine; rw [hsp]; rfl⟩
    | cons mtok rest =>
      cases hm : Method.fromBytes mtok with
      | none =>
        exact ⟨.invalidMethod,
          by unfold parseReqLine; rw [hsp, parseReqLineToks, hm]⟩
      | some m =>
        cases rest with
        | nil =>
          exact ⟨.invalidVersion,
            by unfold parseReqLine; rw [hsp, parseReqLineToks, hm]⟩
        | cons ptok rest2 =>
          cases rest2 with
          | nil =>
            exact ⟨.invalidVersion,
              by unfold parseReqLine; rw [hsp, parseReqLineToks, hm]⟩
          | cons vtok rest3 =>
            rw [hsp] at hlen
            simp at hlen
            omega
  · intro mtok ptok vtok rest m v hsp hm hv
    unfold parseReqLine
    rw [hsp, parseReqLineToks, hm]
    show (parseHttpVersion vtok).map _ = _
    rw [hv]
    rfl
  · intro line1 s1 e hline herr
    unfold create_request readReqHead
    rw [hline]
    simp only [ebind_ok]
    rw [herr]
    simp only [ebind_error, rlift_error]

/-- Counterexample for C5 as stated: a request line with four tokens is
accepted (the token after the version is ignored), not rejected. -/
theorem claim_C5_extra_tokens_cex :
    (splitWs (asciiBytes "GET / HTTP/1.1 junk")).length = 4
      ∧ create_request (asciiBytes "GET / HTTP/1.1 junk\r\n\r\n")
          = .ok ⟨.get, asciiBytes "/", (1, 1), [], 0, none⟩ [] := by
  exact ⟨by decide, by decide⟩

/-- Witness for C5: an unknown method fails with the invalid-method
error; a well-formed line with an arbitrary path is accepted. -/
theorem claim_C5_request_line_witness :
    parseReqLine (asciiBytes "FOO / HTTP/1.1") = .error .invalidMethod
      ∧ parseReqLine (asciiBytes "GET /anything HTTP/1.0")
          = .ok (.get, asciiBytes "/anything", (1, 0)) := by
  constructor
  · exact (claim_C5_request_line (asciiBytes "FOO / HTTP/1.1") []).1
      (asciiBytes "FOO") [asciiBytes "/", asciiBytes "HTTP/1.1"]
      (by decide) (by decide)
  · exact (claim_C5_request_line (asciiBytes "GET /anything HTTP/1.0") []).2.2.2.1
      (asciiBytes "GET") (asciiBytes "/anything") (asciiBytes "HTTP/1.0") []
      .get (1, 0) (by decide) (by decide) (by rfl)

/-- C6: when `create_request` succeeds, the request and leftover stream
are determined by the header block and the first Content-Length header:
with no Content-Length the body is absent and body_length is zero with
nothing consumed; with one of value n, body_length is n and (for
positive n) the body is exactly the next n stream bytes, which are
consumed. -/
theorem claim_C6_content_length (s : List Nat) (req : HttpRequest)
    (rest : List Nat) (hok : create_request s = .ok req rest) :
    ∃ rl hdrs s2, readReqHead s = .ok (rl, hdrs, s2)
      ∧ req.headers = hdrs
      ∧ (hdrs.find? (fun q => equivB q.field (asciiBytes "Content-Length"))
            = none →
          req.body = none ∧ req.bodyLength = 0 ∧ rest = s2)
      ∧ (∀ h,
          hdrs.find? (fun q => equivB q.field (asciiBytes "Content-Length"))
              = some h →
          ∃ n, parseUsizeBytes h.value = some n
            ∧ req.bodyLength = n
            ∧ (n = 0 → req.body = none ∧ rest = s2)
            ∧ (0 < n → req.body = some (s2.take n)
                ∧ (s2.take n).length = n ∧ rest = s2.drop n)) := by
  unfold create_request at hok
  cases hh : readReqHead s with
  | error e =>
    rw [hh] at hok
    simp only [rlift_error] at hok
    exact RResult.noConfusion hok
  | ok t =>
    obtain ⟨rl, hdrs, s2⟩ := t
    rw [hh] at hok
    simp only [rlift_ok] at hok
    cases hf : hdrs.find? (fun q => equivB q.field (asciiBytes "Content-Length")) with
    | none =>
      rw [hf] at hok
      simp only [Option.elim_none] at hok
      injection hok with h1 h2
      refine ⟨rl, hdrs, s2, rfl, ?_, ?_, ?_⟩
      · rw [← h1]
      · intro _
        rw [← h1, ← h2]
        exact ⟨rfl, rfl, rfl⟩
      · intro h hfind
        rw [hf] at hfind
        exact Option.noConfusion hfind
    | some h0 =>
      rw [hf] at hok
      simp only [Option.elim_some] at hok
      cases hp : parseUsizeBytes h0.value with
      | none =>
        rw [hp] at hok
        simp only [Option.elim_none] at hok
        exact RResult.noConfusion hok
      | some n =>
        rw [hp] at hok
        simp only [Option.elim_some] at hok
        by_cases hn : n = 0
        · rw [if_pos hn] at hok
          injection hok with h1 h2
          refine ⟨rl, hdrs, s2, rfl, ?_, ?_, ?_⟩
          · rw [← h1]
          · intro hnone
            rw [hf] at hnone
            exact Option.noConfusion hnone
          · intro h hfind
            rw [hf] at hfind
            injection hfind with hh0
            refine ⟨n, ?_, ?_, ?_, ?_⟩
            · rw [← hh0]
              exact hp
            · rw [← h1, hn]
            · intro _
              rw [← h1, ← h2]
              exact ⟨rfl, rfl⟩
            · intro hpos
              omega
        · rw [if_neg hn] at hok
          by_cases hl : s2.length < n
          · rw [if_pos hl] at hok
            exact RResult.noConfusion hok
          · rw [if_neg hl] at hok
            by_cases hu : validUtf8 (s2.take n) = true
            · rw [if_pos hu] at hok
              injection hok with h1 h2
              refine ⟨rl, hdrs, s2, rfl, ?_, ?_, ?_⟩
              · rw [← h1]
              · intro hnone
                rw [hf] at hnone
                exact Option.noConfusion hnone
              · intro h hfind
                rw [hf] at hfind
                injection hfind with hh0
                refine ⟨n, ?_, ?_, ?_, ?_⟩
                · rw [← hh0]
                  exact hp
                · rw [← h1]
                · intro h0n
                  exact absurd h0n hn
                · intro _
                  refine ⟨?_, ?_, ?_⟩
                  · rw [← h1]
                  · rw [List.length_take]
                    omega
                  · rw [← h2]
            · rw [if_neg hu] at hok
              exact RResult.noConfusion hok

/-- Witness for C6: a POST with `Content-Length: 3` and stream body
bytes "abcEXTRA" reads exactly "abc" as the body, leaving "EXTRA". -/
theorem claim_C6_content_length_witness :
    ∃ rl hdrs s2,
      readReqHead
          (asciiBytes "POST / HTTP/1.0\r\nContent-Length: 3\r\n\r\nabcEXTRA")
          = .ok (rl, hdrs, s2)
      ∧ (⟨.post, asciiBytes "/", (1, 0),
            [⟨asciiBytes "Content-Length", asciiBytes "3"⟩], 3,
            some (asciiBytes "abc")⟩ : HttpRequest).headers = hdrs
      ∧ (hdrs.find? (fun q => equivB q.field (asciiBytes "Content-Length"))
            = none →
          (⟨.post, asciiBytes "/", (1, 0),
              [⟨asciiBytes "Content-Length", asciiBytes "3"⟩], 3,
              some (asciiBytes "abc")⟩ : HttpRequest).body = none
            ∧ (⟨.post, asciiBytes "/", (1, 0),
                [⟨asciiBytes "Content-Length", asciiBytes "3"⟩], 3,
                some (asciiBytes "abc")⟩ : HttpRequest).bodyLength = 0
            ∧ asciiBytes "EXTRA" = s2)
      ∧ (∀ h,
          hdrs.find? (fun q => equivB q.field (asciiBytes "Content-Length"))
              = some h →
          ∃ n, parseUsizeBytes h.value = some n
            ∧ (⟨.post, asciiBytes "/", (1, 0),
                [⟨asciiBytes "Content-Length", asciiBytes "3"⟩], 3,
                some (asciiBytes "abc")⟩ : HttpRequest).bodyLength = n
            ∧ (n = 0 →
                (⟨.post, asciiBytes "/", (1, 0),
                    [⟨asciiBytes "Content-Length", asciiBytes "3"⟩], 3,
                    some (asciiBytes "abc")⟩ : HttpRequest).body = none
                  ∧ asciiBytes "EXTRA" = s2)
            ∧ (0 < n →
                (⟨.post, asciiBytes "/", (1, 0),
                    [⟨asciiBytes "Content-Length", asciiBytes "3"⟩], 3,
                    some (asciiBytes "abc")⟩ : HttpRequest).body
                    = some (s2.take n)
                  ∧ (s2.take n).length = n
                  ∧ asciiBytes "EXTRA" = s2.drop n)) :=
  claim_C6_content_length
    (asciiBytes "POST / HTTP/1.0\r\nContent-Length: 3\r\n\r\nabcEXTRA")
    ⟨.post, asciiBytes "/", (1, 0),
      [⟨asciiBytes "Content-Length", asciiBytes "3"⟩], 3,
      some (asciiBytes "abc")⟩
    (asciiBytes "EXTRA") (by decide)

/-- C7 (amended): end-of-stream mid-line raises the ConnectionAborted
class error, distinct from the InvalidInput class of the non-UTF-8
header-line error; a stream ending before the header block terminates
yields the EOF error provided every complete line read before the end is
well-formed — a valid request line and valid header lines — but a
malformed complete header line yields the malformed-line error even
though the stream ends early. -/
theorem claim_C7_eof_vs_malformed (s : List Nat) :
    HErr.classOf .unexpectedEofLine ≠ HErr.classOf .headerNotAscii
      ∧ (noCrlfFrom false s = true →
          readNextLine s = .error .unexpectedEofLine)
      ∧ (readNextLine s = .error .headerNotAscii →
          noCrlfFrom false s = false)
      ∧ (∀ reqline hdrlines tail rl,
          noCrlfFrom false reqline = true → validUtf8 reqline = true →
          parseReqLine reqline = .ok rl →
          (∀ l ∈ hdrlines, l ≠ [] ∧ noCrlfFrom false l = true
            ∧ validUtf8 l = true ∧ (headerFromLine l).isSome = true) →
          noCrlfFrom false tail = true →
          create_request (joinCRLF (reqline :: hdrlines) ++ tail)
            = .err .unexpectedEofLine) := by
  refine ⟨by decide, readNextLine_eof s, ?_, ?_⟩
  · intro h
    cases hcc : noCrlfFrom false s with
    | false => rfl
    | true =>
      rw [readNextLine_eof s hcc] at h
      injection h with h'
      exact HErr.noConfusion h'
  · intro reqline hdrlines tail rl hr hv hrl hall htail
    unfold create_request readReqHead
    rw [show joinCRLF (reqline :: hdrlines) ++ tail
          = reqline ++ 13 :: 10 :: (joinCRLF hdrlines ++ tail) by
        rw [joinCRLF]; simp [List.append_assoc]]
    rw [readNextLine_line reqline (joinCRLF hdrlines ++ tail) hr hv]
    simp only [ebind_ok]
    rw [hrl]
    simp only [ebind_ok]
    rw [readHeaderLoop_trunc hdrlines tail hall htail]
    simp only [ebind_error, rlift_error]

/-- Counterexample for C7 as stated: the stream of a valid request line
followed by a complete but non-UTF-8 header line ends before the header
block terminates, yet `create_request` reports the non-ASCII-header
error (class InvalidInput), not the EOF-class error. -/
theorem claim_C7_not_ascii_cex :
    streamHeadersEnd (asciiBytes "GET / HTTP/1.1\r\n"
        ++ [72, 255, 58, 118, 13, 10]) = false
      ∧ create_request (asciiBytes "GET / HTTP/1.1\r\n"
          ++ [72, 255, 58, 118, 13, 10]) = .err .headerNotAscii
      ∧ HErr.classOf .headerNotAscii ≠ ErrClass.connAborted := by
  exact ⟨by decide, by decide, by decide⟩

/-- Witness for C7: a truncated request line gives the EOF error, and a
well-formed request line and header line followed by a truncated tail
make `create_request` give the EOF error. -/
theorem claim_C7_eof_vs_malformed_witness :
    readNextLine (asciiBytes "GET / HT") = .error .unexpectedEofLine
      ∧ create_request (joinCRLF [asciiBytes "GET / HTTP/1.1",
            asciiBytes "Host: x"] ++ asciiBytes "Conte")
          = .err .unexpectedEofLine := by
  constructor
  · exact (claim_C7_eof_vs_malformed (asciiBytes "GET / HT")).2.1 (by decide)
  · exact (claim_C7_eof_vs_malformed []).2.2.2
      (asciiBytes "GET / HTTP/1.1") [asciiBytes "Host: x"]
      (asciiBytes "Conte") (.get, asciiBytes "/", (1, 1))
      (by decide) (by decide) (by rfl)
      (by
        intro l hl
        have hle : l = asciiBytes "Host: x" := by simpa using hl
        subst hle
        exact ⟨by decide, by rfl, by rfl, by rfl⟩)
      (by decide)

/-- C10 (amended): `create_request` panics exactly when the header block
parses and the FIRST Content-Length header (the one `find` returns) has
a value that does not parse as a decimal unsigned integer; a later
unparseable Content-Length header is never examined, so the precondition
for a normal return concerns only the first such header. -/
theorem claim_C10_cl_panic (s : List Nat) :
    create_request s = .crash
      ↔ ∃ rl hdrs s2 h,
          readReqHead s = .ok (rl, hdrs, s2)
            ∧ hdrs.find? (fun q => equivB q.field (asciiBytes "Content-Length"))
                = some h
            ∧ parseUsizeBytes h.value = none := by
  unfold create_request
  cases hh : readReqHead s with
  | error e =>
    simp only [rlift_error]
    constructor
    · intro hc
      exact RResult.noConfusion hc
    · rintro ⟨rl, hdrs, s2, h, hok, _, _⟩
      exact Except.noConfusion hok
  | ok t =>
    obtain ⟨rl, hdrs, s2⟩ := t
    simp only [rlift_ok]
    cases hf : hdrs.find? (fun q => equivB q.field (asciiBytes "Content-Length")) with
    | none =>
      simp only [Option.elim_none]
      constructor
      · intro hc
        exact RResult.noConfusion hc
      · rintro ⟨rl2, hdrs2, s22, h, hok, hfind, _⟩
        injection hok with ht
        injection ht with ha hb
        injection hb with hb1 hb2
        rw [← hb1, hf] at hfind
        exact Option.noConfusion hfind
    | some h0 =>
      simp only [Option.elim_some]
      cases hp : parseUsizeBytes h0.value with
      | none =>
        simp only [Option.elim_none]
        exact ⟨fun _ => ⟨rl, hdrs, s2, h0, rfl, hf, hp⟩, fun _ => trivial⟩
      | some n =>
        simp only [Option.elim_some]
        constructor
        · intro hc
          by_cases hn : n = 0
          · rw [if_pos hn] at hc
            exact RResult.noConfusion hc
          · rw [if_neg hn] at hc
            by_cases hl : s2.length < n
            · rw [if_pos hl] at hc
              exact RResult.noConfusion hc
            · rw [if_neg hl] at hc
              by_cases hu : validUtf8 (s2.take n) = true
              · rw [if_pos hu] at hc
                exact RResult.noConfusion hc
              · rw [if_neg hu] at hc
                exact RResult.noConfusion hc
        · rintro ⟨rl2, hdrs2, s22, h, hok, hfind, hpp⟩
          injection hok with ht
          injection ht with ha hb
          injection hb with hb1 hb2
          rw [← hb1, hf] at hfind
          injection hfind with hf1
          rw [← hf1, hp] at hpp
          exact Option.noConfusion hpp

/-- Counterexample for C10 as stated for every bad Content-Length: a
request carrying a second, unparseable Content-Length header after a
good first one returns normally instead of panicking. -/
theorem claim_C10_second_cl_cex :
    readReqHead (asciiBytes
          "GET / HTTP/1.1\r\nContent-Length: 2\r\nContent-Length: xx\r\n\r\nab")
        = .ok ((.get, asciiBytes "/", (1, 1)),
            [⟨asciiBytes "Content-Length", asciiBytes "2"⟩,
             ⟨asciiBytes "Content-Length", asciiBytes "xx"⟩],
            asciiBytes "ab")
      ∧ parseUsizeBytes (asciiBytes "xx") = none
      ∧ create_request (asciiBytes
            "GET / HTTP/1.1\r\nContent-Length: 2\r\nContent-Length: xx\r\n\r\nab")
          ≠ .crash := by
  exact ⟨by rfl, by rfl, by decide⟩

/-- Witness for C10: an unparseable first Content-Length value makes
`create_request` panic. -/
theorem claim_C10_cl_panic_witness :
    create_request (asciiBytes "GET / HTTP/1.1\r\nContent-Length: abc\r\n\r\n")
        = .crash :=
  (claim_C10_cl_panic
      (asciiBytes "GET / HTTP/1.1\r\nContent-Length: abc\r\n\r\n")).mpr
    ⟨(.get, asciiBytes "/", (1, 1)),
      [⟨asciiBytes "Content-Length", asciiBytes "abc"⟩], [],
      ⟨asciiBytes "Content-Length", asciiBytes "abc"⟩,
      by rfl, by rfl, by rfl⟩
